import Mathlib

/-!
Verification of the midi-2-synth tempo-segmentation core.

This file gives a shallow embedding of the repository code
(src/util.py, src/merging.py, src/audio.py, src/midi.py, src/beatmap.py)
and proves properties of that embedding.

Conventions of the embedding:
* Python floats are modelled as exact rationals.  All numeric values that
  flow through the claims under scrutiny are decimal values (milliseconds
  rounded to three decimals, BPM rounded to two decimals), for which exact
  rational arithmetic agrees with IEEE double arithmetic at the precision
  the filename codec and the claims use.
* Python strings are modelled as `List Char`.
* `dict` objects with a fixed key set are modelled as structures with
  `Option` fields for keys that may be absent; insertion-ordered dicts with
  dynamic keys are modelled as association lists with upsert.
* Fallible code (a Python `raise`) is modelled with `Option` / `Except`.
-/

/-! ## Character and decimal-string utilities -/

/-- The character for a decimal digit value, `chr(48 + n)` for `n < 10`. -/
def digitChar (n : ℕ) : Char := Char.ofNat (48 + n)

/-- Whether a character is an ASCII decimal digit (the regex class `\d`). -/
def isDigitChar (c : Char) : Bool := 48 ≤ c.toNat && c.toNat ≤ 57

/-- Numeric value of an ASCII decimal digit. -/
def digitVal (c : Char) : ℕ := c.toNat - 48

/-- Fuel-driven base-10 rendering used by `natDigits`. -/
def natDigitsGo : ℕ → ℕ → List Char
  | 0, _ => []
  | f + 1, n =>
    if n < 10 then [digitChar n]
    else natDigitsGo f (n / 10) ++ [digitChar (n % 10)]

/-- Decimal digit string of a natural number; models Python `str(n)`. -/
def natDigits (n : ℕ) : List Char := natDigitsGo (n + 1) n

/-- Numeric value of a digit string; models Python `int(s)` on a string of
decimal digits (leading zeros allowed). -/
def natOfDigits (l : List Char) : ℕ := l.foldl (fun a c => 10 * a + digitVal c) 0

/-- Left-pad a string with zeros to width `w`; models Python `str.zfill(w)`. -/
def padLeftZeros (w : ℕ) (l : List Char) : List Char :=
  List.replicate (w - l.length) '0' ++ l

/-- Strip every trailing occurrence of `c`; models Python `str.rstrip(c)`. -/
def rstripChar (c : Char) (l : List Char) : List Char :=
  (l.reverse.dropWhile (fun x => x == c)).reverse

/-- Fixed-point decimal rendering of `v / 10^p` with exactly `p` decimal
places; models Python `f-string` formatting with precision `p` (for the
codec, `p = 3` on integral-millisecond times and `p = 2` on BPM values with
at most two decimals, where float formatting is exact). -/
def fixedDec (p v : ℕ) : List Char :=
  natDigits (v / 10 ^ p) ++ '.' :: padLeftZeros p (natDigits (v % 10 ^ p))

/-- Fixed-point rendering with the trailing zeros and a trailing decimal
point removed; models Python `f"{x:.pf}".rstrip("0").rstrip(".")`. -/
def trimmedDec (p v : ℕ) : List Char := rstripChar '.' (rstripChar '0' (fixedDec p v))

/-! ## src/util.py : the filename encoder

`generate_segment_filename(base_path, index, total_count, segment)` builds
`{stem}_{seq}_BPM{bpm}{time_sig_str}_{start}s-{end}s_dur{duration}s_Segment{suffix}`.
Times are seconds formatted with `.3f` then stripped (`trimmedDec 3` of the
integral millisecond count), BPM is `%g` (`trimmedDec 2` of the BPM in
hundredths, exact for BPM values with at most two decimals and at most six
significant digits). -/

/-- Time signature record `{numerator, denominator}` of a segment. -/
structure TimeSig where
  numerator : ℕ
  denominator : ℕ
deriving DecidableEq

/-- The fields of the `segment` dict that `generate_segment_filename` reads.
`bpm100` is the BPM in hundredths (the BPM float has at most two decimals);
times are integral milliseconds (the claims quantify over times with at most
three decimal digits of seconds). -/
structure SegmentMeta where
  bpm100 : ℕ
  time_signature : Option TimeSig
  start_ms : ℕ
  end_ms : ℕ
  duration_ms : ℕ
deriving DecidableEq

/-- The literal `"_BPM"`. -/
def litBPM : List Char := ['_', 'B', 'P', 'M']

/-- The literal `"_TimeSignature"`. -/
def litTimeSignature : List Char :=
  ['_', 'T', 'i', 'm', 'e', 'S', 'i', 'g', 'n', 'a', 't', 'u', 'r', 'e']

/-- The literal `"s_dur"`. -/
def litSDur : List Char := ['s', '_', 'd', 'u', 'r']

/-- The literal `"s_Segment."`: the tail `"s_Segment"` plus the dot of the
path suffix (`Path(base_path).suffix` begins with a dot). -/
def litSSegmentDot : List Char := ['s', '_', 'S', 'e', 'g', 'm', 'e', 'n', 't', '.']

/-- The `time_sig_str` piece: `f"_TimeSignature{num}-{den}"` when the
segment has a time signature, `""` otherwise. -/
def tsStrPart : Option TimeSig → List Char
  | none => []
  | some t => litTimeSignature ++ natDigits t.numerator ++ '-' :: natDigits t.denominator

/-- Model of `generate_segment_filename` (src/util.py lines 52-79); `stem`
and `ext` are `Path(base_path).stem` and the suffix without its leading dot. -/
def generate_segment_filename (stem ext : List Char) (index total_count : ℕ)
    (segment : SegmentMeta) : List Char :=
  stem
    ++ '_' :: padLeftZeros (natDigits total_count).length (natDigits (index + 1))
    ++ litBPM ++ trimmedDec 2 segment.bpm100
    ++ tsStrPart segment.time_signature
    ++ '_' :: trimmedDec 3 segment.start_ms
    ++ 's' :: '-' :: trimmedDec 3 segment.end_ms
    ++ litSDur ++ trimmedDec 3 segment.duration_ms
    ++ litSSegmentDot ++ ext

/-- Model of `beats_per_measure_from_time_signature` (src/util.py lines
82-94): numerator and denominator default to 4 when the key is absent, and
the result is `int(numerator / (denominator / 4))` (float truncation toward
zero, modelled exactly on rationals). -/
structure TimeSigDict where
  numerator : Option ℕ
  denominator : Option ℕ
deriving DecidableEq

/-- Python `int(x)` on a float: truncation toward zero (floor for
nonnegative values, ceiling for negative ones). -/
def pyInt (q : ℚ) : ℤ := if 0 ≤ q then ⌊q⌋ else ⌈q⌉

def beats_per_measure_from_time_signature (time_signature : TimeSigDict) : ℤ :=
  let numerator := time_signature.numerator.getD 4
  let denominator := time_signature.denominator.getD 4
  let r4 : ℚ := (denominator : ℚ) / 4
  pyInt ((numerator : ℚ) / r4)

/-! ## src/merging.py : the filename decoder

`parse_segment_filename` applies `re.match` with
`(.+?)_(\d+)_BPM(\d+(?:\.\d+)?)(?:_TimeSignature(\d+)-(\d+))?_(\d+(?:\.\d+)?)s-(\d+(?:\.\d+)?)s_dur(\d+(?:\.\d+)?)s_Segment\.(.+)`
and then converts the groups.  The pattern is hand-compiled into a matcher:
the only backtracking the pattern can perform is the shortest-first search
for the non-greedy `(.+?)`, because each `\d+` is followed by a non-digit
non-dot literal (maximal munch is exact) and the optional
`(?:_TimeSignature...)?` branch and its skip alternative can never both make
progress on the same input (the skip requires a digit right after `_`, the
group requires the letter `T`). -/

/-- Consume an expected literal from the head of the input (`none` when the
input does not start with the literal). -/
def dropLit : List Char → List Char → Option (List Char)
  | [], l => some l
  | _ :: _, [] => none
  | c :: cs, x :: xs => if x = c then dropLit cs xs else none

/-- Maximal run of decimal digits at the head of the input, with the rest. -/
def takeDigits (l : List Char) : List Char × List Char :=
  (l.takeWhile (fun c => isDigitChar c), l.dropWhile (fun c => isDigitChar c))

/-- Match `\d+(?:\.\d+)?`: the integer digit group, the (possibly empty)
fraction digit group, and the rest of the input. -/
def numberText (l : List Char) : Option ((List Char × List Char) × List Char) :=
  let (d, r) := takeDigits l
  if d = [] then none
  else
    match r with
    | [] => some ((d, []), r)
    | c :: r2 =>
      if c = '.' then
        let (f, r3) := takeDigits r2
        if f = [] then some ((d, []), r) else some ((d, f), r3)
      else some ((d, []), r)

/-- The raw capture groups of the segment-filename regex, minus the base
name: segment number digits, BPM number, optional time-signature digit
pair, the three time numbers, and the extension. -/
structure RawGroups where
  g2 : List Char
  g3 : List Char × List Char
  g45 : Option (List Char × List Char)
  g6 : List Char × List Char
  g7 : List Char × List Char
  g8 : List Char × List Char
  g9 : List Char
deriving DecidableEq

/-- Match `_(\d+(?:\.\d+)?)s-(\d+(?:\.\d+)?)s_dur(\d+(?:\.\d+)?)s_Segment\.(.+)`,
the part of the pattern after the optional time-signature group. -/
def tailMatch (g2 : List Char) (g3 : List Char × List Char)
    (g45 : Option (List Char × List Char)) (l : List Char) : Option RawGroups :=
  match dropLit ['_'] l with
  | none => none
  | some l1 =>
    match numberText l1 with
    | none => none
    | some (g6, l2) =>
      match dropLit ['s', '-'] l2 with
      | none => none
      | some l3 =>
        match numberText l3 with
        | none => none
        | some (g7, l4) =>
          match dropLit litSDur l4 with
          | none => none
          | some l5 =>
            match numberText l5 with
            | none => none
            | some (g8, l6) =>
              match dropLit litSSegmentDot l6 with
              | none => none
              | some l7 =>
                let g9 := l7.takeWhile (fun c => c ≠ '\n')
                if g9 = [] then none else some ⟨g2, g3, g45, g6, g7, g8, g9⟩

/-- Match `_(\d+)_BPM(\d+(?:\.\d+)?)(?:_TimeSignature(\d+)-(\d+))?` followed
by the tail pattern: everything after the non-greedy base-name group. -/
def restMatch (l : List Char) : Option RawGroups :=
  match dropLit ['_'] l with
  | none => none
  | some l1 =>
    let (g2, l2) := takeDigits l1
    if g2 = [] then none
    else
      match dropLit litBPM l2 with
      | none => none
      | some l3 =>
        match numberText l3 with
        | none => none
        | some (g3, l4) =>
          match dropLit litTimeSignature l4 with
          | some l5 =>
            let (g4, l6) := takeDigits l5
            if g4 = [] then none
            else
              match dropLit ['-'] l6 with
              | none => none
              | some l7 =>
                let (g5, l8) := takeDigits l7
                if g5 = [] then none else tailMatch g2 g3 (some (g4, g5)) l8
          | none => tailMatch g2 g3 none l4

/-- Shortest-first search for the split after the non-greedy `(.+?)`: the
base-name candidate grows one character at a time (never across a newline,
which `.` does not match) and the first candidate whose remainder matches
the rest of the pattern wins. -/
def scanSplit : List Char → List Char → Option (List Char × RawGroups)
  | _, [] => none
  | acc, c :: rest =>
    if c = '\n' then none
    else
      match restMatch rest with
      | some g => some (acc ++ [c], g)
      | none => scanSplit (acc ++ [c]) rest

/-- The decoded metadata dict built by `parse_segment_filename`. -/
structure ParsedSegment where
  base_name : List Char
  segment_number : ℕ
  bpm : ℚ
  time_signature : TimeSig
  start_time : ℚ
  end_time : ℚ
  duration : ℚ
  file_extension : List Char
deriving DecidableEq

/-- Exact value of a matched number group, `float(text)` on
`digits[.digits]` (exact as a rational; the codec only compares values at
the three-decimal precision where doubles are exact). -/
def ratOfParts (p : List Char × List Char) : ℚ :=
  (natOfDigits p.1 : ℚ) + (natOfDigits p.2 : ℚ) / 10 ^ p.2.length

/-- Model of `parse_segment_filename` (src/merging.py lines 10-34).  A
non-matching filename raises `ValueError`; a matching filename without the
optional time-signature groups reaches `int(match.group(4))` with `None`
and raises `TypeError`.  Both are modelled as `Except.error`. -/
def parse_segment_filename (filename : List Char) : Except (List Char) ParsedSegment :=
  match scanSplit [] filename with
  | none => .error (("Filename does not match expected pattern").data ++ filename)
  | some (g1, g) =>
    match g.g45 with
    | none => .error ("TypeError: int() argument is None").data
    | some (g4, g5) =>
      .ok { base_name := g1
            segment_number := natOfDigits g.g2
            bpm := ratOfParts g.g3
            time_signature := ⟨natOfDigits g4, natOfDigits g5⟩
            start_time := ratOfParts g.g6
            end_time := ratOfParts g.g7
            duration := ratOfParts g.g8
            file_extension := g.g9 }

/-- Decidable equality of decoder results, for concrete evaluation. -/
instance {ε α : Type} [DecidableEq ε] [DecidableEq α] : DecidableEq (Except ε α) :=
  fun x y =>
    match x, y with
    | .error a, .error b =>
      if h : a = b then .isTrue (by rw [h]) else .isFalse (fun he => h (Except.error.inj he))
    | .ok a, .ok b =>
      if h : a = b then .isTrue (by rw [h]) else .isFalse (fun he => h (Except.ok.inj he))
    | .error _, .ok _ => .isFalse (fun he => Except.noConfusion he)
    | .ok _, .error _ => .isFalse (fun he => Except.noConfusion he)

/-! ## Python numeric helpers shared by the remaining modules -/

/-- Python `round(x, p)` on a float, modelled as rounding `x * 10^p` to the
nearest integer (the claims under scrutiny never hit a tie, where the
binary-float banker rounding could differ). -/
def pyRound (p : ℕ) (q : ℚ) : ℚ := ((round (q * 10 ^ p) : ℤ) : ℚ) / 10 ^ p

/-- Python `x % y` on floats with `y > 0`: `x - y * floor(x / y)`. -/
def pyFMod (x y : ℚ) : ℚ := x - y * (⌊x / y⌋ : ℚ)

/-- `mido.tick2second(tick, ticks_per_beat, tempo)`:
`tick * (tempo * 1e-6 / ticks_per_beat)` seconds. -/
def tick2second (tick : ℚ) (ticks_per_beat : ℚ) (tempo : ℚ) : ℚ :=
  tick * (tempo * (1 / 1000000) / ticks_per_beat)

/-- `mido.tempo2bpm(tempo)` for the default 4/4 signature: `60e6 / tempo`. -/
def tempo2bpm (tempo : ℚ) : ℚ := 60000000 / tempo

/-! ## src/midi.py : tick-time converter and tempo timeline builder -/

/-- A collected tempo event `{time_ticks, tempo, track}` (absolute ticks). -/
structure TempoEvent where
  time_ticks : ℕ
  tempo : ℚ
  track : ℕ
deriving DecidableEq

/-- The event loop of `calculate_time_from_ticks` (src/midi.py lines 28-51):
state is `(current_time_seconds, current_tempo, last_tick_position)`; the
empty case is the `for ... else` branch. -/
def calcGo (target_ticks ticks_per_beat : ℕ) :
    List TempoEvent → ℚ → ℚ → ℕ → ℚ
  | [], t, tempo, last =>
    let remaining : ℤ := (target_ticks : ℤ) - (last : ℤ)
    if 0 < remaining then t + tick2second (remaining : ℚ) (ticks_per_beat : ℚ) tempo else t
  | e :: rest, t, tempo, last =>
    if target_ticks ≤ e.time_ticks then
      let remaining : ℤ := (target_ticks : ℤ) - (last : ℤ)
      if 0 < remaining then t + tick2second (remaining : ℚ) (ticks_per_beat : ℚ) tempo else t
    else
      let t2 :=
        if last < e.time_ticks then
          t + tick2second ((e.time_ticks - last : ℕ) : ℚ) (ticks_per_beat : ℚ) tempo
        else t
      calcGo target_ticks ticks_per_beat rest t2 e.tempo e.time_ticks

/-- Model of `calculate_time_from_ticks` (src/midi.py lines 7-52).  Returns
the elapsed time in SECONDS (per its docstring); callers multiply by 1000. -/
def calculate_time_from_ticks (target_ticks ticks_per_beat : ℕ)
    (tempo_events : List TempoEvent) (initial_tempo : ℚ) : ℚ :=
  if target_ticks = 0 then 0
  else calcGo target_ticks ticks_per_beat tempo_events 0 initial_tempo 0

/-- The typed payloads of a parsed MIDI message that the builder inspects. -/
inductive MidiPayload where
  | set_tempo (tempo : ℕ)
  | time_signature (numerator denominator : ℕ)
  | other
deriving DecidableEq

/-- A parsed MIDI message: a relative tick delta plus a payload. -/
structure MidiMessage where
  time : ℕ
  payload : MidiPayload
deriving DecidableEq

/-- A parsed MIDI structure: ticks-per-beat and the message tracks. -/
structure MidiFileModel where
  ticks_per_beat : ℕ
  tracks : List (List MidiMessage)
deriving DecidableEq

/-- Stable insertion by an ascending rational key: the new element goes
after every earlier element whose key is less than or equal. -/
def insertByKey {α : Type} (key : α → ℚ) (x : α) : List α → List α
  | [] => [x]
  | y :: ys => if key y ≤ key x then y :: insertByKey key x ys else x :: y :: ys

/-- Stable ascending sort by a rational key; models Python `list.sort(key=...)`
(a stable sort). -/
def sortByKey {α : Type} (key : α → ℚ) (l : List α) : List α :=
  l.foldl (fun acc x => insertByKey key x acc) []

/-- Per-track scan of `extract_tempo_changes`: the running tick counter adds
each message delta and every `set_tempo` payload is collected. -/
def trackTempoEvents (track_idx : ℕ) : ℕ → List MidiMessage → List TempoEvent
  | _, [] => []
  | cur, m :: ms =>
    let cur2 := cur + m.time
    match m.payload with
    | .set_tempo t => ⟨cur2, (t : ℚ), track_idx⟩ :: trackTempoEvents track_idx cur2 ms
    | _ => trackTempoEvents track_idx cur2 ms

/-- Model of `extract_tempo_changes` (src/midi.py lines 54-81): all tracks
scanned, then sorted ascending by `time_ticks`. -/
def extract_tempo_changes (midi : MidiFileModel) : List TempoEvent :=
  sortByKey (fun e => (e.time_ticks : ℚ))
    (midi.tracks.enum.flatMap (fun p => trackTempoEvents p.1 0 p.2))

/-- A collected time-signature change (the `clocks_per_click` and
`notated_32nd_notes_per_beat` fields are copied but never read downstream
and are omitted). -/
structure TimeSigChange where
  numerator : ℕ
  denominator : ℕ
  time_ticks : ℕ
  time_ms : ℚ
  track : ℕ
deriving DecidableEq

/-- Per-track scan of `extract_time_signature_changes`: each
`time_signature` message is converted to absolute milliseconds with
`calculate_time_from_ticks` (seconds times 1000). -/
def trackTimeSigChanges (ticks_per_beat : ℕ) (tempo_events : List TempoEvent)
    (initial_tempo : ℚ) (track_num : ℕ) : ℕ → List MidiMessage → List TimeSigChange
  | _, [] => []
  | cur, m :: ms =>
    let cur2 := cur + m.time
    match m.payload with
    | .time_signature num den =>
      let absolute_time := calculate_time_from_ticks cur2 ticks_per_beat tempo_events initial_tempo
      ⟨num, den, cur2, absolute_time * 1000, track_num⟩
        :: trackTimeSigChanges ticks_per_beat tempo_events initial_tempo track_num cur2 ms
    | _ => trackTimeSigChanges ticks_per_beat tempo_events initial_tempo track_num cur2 ms

/-- Model of `extract_time_signature_changes` (src/midi.py lines 83-113):
all tracks scanned, then sorted ascending by `time_ms`. -/
def extract_time_signature_changes (midi : MidiFileModel)
    (tempo_events : List TempoEvent) (initial_tempo : ℚ) : List TimeSigChange :=
  sortByKey (fun c => c.time_ms)
    (midi.tracks.enum.flatMap
      (fun p => trackTimeSigChanges midi.ticks_per_beat tempo_events initial_tempo p.1 0 p.2))

/-- Value stored under the `tempo` key of a change-map entry. -/
structure TempoRecord where
  time_ms : ℚ
  bpm : ℚ
  tempo : ℚ
deriving DecidableEq

/-- One change-map entry: the optional `tempo` and `time_signature` keys. -/
structure ChangeEvents where
  tempo : Option TempoRecord
  time_signature : Option TimeSig
deriving DecidableEq

/-- Upsert of `time_changes[key]['tempo'] = tr` on the insertion-ordered
dict (a new key is appended at the end). -/
def upsertTempo (m : List (ℚ × ChangeEvents)) (k : ℚ) (tr : TempoRecord) :
    List (ℚ × ChangeEvents) :=
  match m with
  | [] => [(k, ⟨some tr, none⟩)]
  | (k0, e) :: rest =>
    if k0 = k then (k0, { e with tempo := some tr }) :: rest
    else (k0, e) :: upsertTempo rest k tr

/-- Upsert of `time_changes[key]['time_signature'] = ts`. -/
def upsertTimeSig (m : List (ℚ × ChangeEvents)) (k : ℚ) (ts : TimeSig) :
    List (ℚ × ChangeEvents) :=
  match m with
  | [] => [(k, ⟨none, some ts⟩)]
  | (k0, e) :: rest =>
    if k0 = k then (k0, { e with time_signature := some ts }) :: rest
    else (k0, e) :: upsertTimeSig rest k ts

/-- First-match association-list lookup, `key in dict` plus `dict[key]`. -/
def lookupKey (m : List (ℚ × ChangeEvents)) (k : ℚ) : Option ChangeEvents :=
  match m with
  | [] => none
  | (k0, e) :: rest => if k0 = k then some e else lookupKey rest k

/-- The tempo replay loop of `extract_tempo_and_time_signature_changes`
(src/midi.py lines 138-160): state is the map under construction, the
running millisecond position, the running tempo and the last tick; an entry
is recorded (at the key rounded to 3 decimals) only when the tempo value
actually changes.  Returns the map and the final running tempo. -/
def tempoLoop (ticks_per_beat : ℕ) :
    List TempoEvent → List (ℚ × ChangeEvents) → ℚ → ℚ → ℕ →
    List (ℚ × ChangeEvents) × ℚ
  | [], m, _, cur_tempo, _ => (m, cur_tempo)
  | e :: rest, m, cur_ms, cur_tempo, last =>
    let cur_ms2 :=
      if last < e.time_ticks then
        cur_ms + tick2second ((e.time_ticks - last : ℕ) : ℚ) (ticks_per_beat : ℚ) cur_tempo * 1000
      else cur_ms
    if cur_tempo ≠ e.tempo then
      let bpm := tempo2bpm e.tempo
      let m2 := upsertTempo m (pyRound 3 cur_ms2) ⟨cur_ms2, pyRound 2 bpm, e.tempo⟩
      tempoLoop ticks_per_beat rest m2 cur_ms2 e.tempo e.time_ticks
    else tempoLoop ticks_per_beat rest m cur_ms2 cur_tempo e.time_ticks

/-- Model of `extract_tempo_and_time_signature_changes` (src/midi.py lines
115-178): synthesize an initial tempo from the base BPM when no tempo event
sits at tick 0, replay the tempo events, then merge the time-signature
changes at their rounded millisecond keys.  (The `except` path concerns a
malformed host MIDI object and is outside the embedding.) -/
def extract_tempo_and_time_signature_changes (midi : MidiFileModel) (bpm : ℚ) :
    List (ℚ × ChangeEvents) :=
  let all_tempo_events := extract_tempo_changes midi
  let current_tempo := 60000000 / bpm
  let init : List (ℚ × ChangeEvents) :=
    if (match all_tempo_events with
        | [] => true
        | e :: _ => decide (0 < e.time_ticks)) then
      [(0, ⟨some ⟨0, pyRound 2 (tempo2bpm current_tempo), current_tempo⟩, none⟩)]
    else []
  let step1 := tempoLoop midi.ticks_per_beat all_tempo_events init 0 current_tempo 0
  let time_sig_changes :=
    extract_time_signature_changes midi all_tempo_events ((pyInt step1.2 : ℤ) : ℚ)
  time_sig_changes.foldl
    (fun m c => upsertTimeSig m (pyRound 3 c.time_ms) ⟨c.numerator, c.denominator⟩) step1.1

/-! ## src/audio.py : the segmenter -/

/-- One tempo segment as built by `create_tempo_segments`: `bpm` always
carries a value (it starts from `initial_bpm`), while `tempo` and
`time_signature` start as Python `None`. -/
structure Segment where
  start_ms : ℚ
  end_ms : ℚ
  duration_ms : ℚ
  bpm : ℚ
  tempo : Option ℚ
  time_signature : Option TimeSig
deriving DecidableEq

/-- The segment recurrence of `create_tempo_segments`: walk the sorted keys,
end each segment at the next key (or at the audio duration for the last),
and carry the last-seen BPM/tempo/time-signature forward across keys that
lack them.  This is the value the loop would build if every iteration
completed; the error path of the loop body lives in `ctsGoE` below. -/
def ctsGo (changes : List (ℚ × ChangeEvents)) (audio_duration_ms : ℚ) :
    List ℚ → ℚ → Option ℚ → Option TimeSig → List Segment
  | [], _, _, _ => []
  | k :: rest, last_bpm, last_tempo, last_ts =>
    let events := (lookupKey changes k).getD ⟨none, none⟩
    let end_time := match rest with | [] => audio_duration_ms | k2 :: _ => k2
    let bpm2 := match events.tempo with | some tr => tr.bpm | none => last_bpm
    let tempo2 := match events.tempo with | some tr => some tr.tempo | none => last_tempo
    let ts2 := match events.time_signature with | some t => some t | none => last_ts
    { start_ms := k, end_ms := end_time, duration_ms := end_time - k,
      bpm := bpm2, tempo := tempo2, time_signature := ts2 }
      :: ctsGo changes audio_duration_ms rest bpm2 tempo2 ts2

/-- The key loop of `create_tempo_segments` with its error path: the
per-segment log line (src/audio.py line 96) is an f-string that subscripts
`segment['time_signature']['numerator']` unconditionally and is evaluated
eagerly regardless of log level, so an iteration whose (carried)
time signature is still Python `None` raises
`TypeError: 'NoneType' object is not subscriptable` before appending the
segment, and the function returns nothing. -/
def ctsGoE (changes : List (ℚ × ChangeEvents)) (audio_duration_ms : ℚ) :
    List ℚ → ℚ → Option ℚ → Option TimeSig → Except (List Char) (List Segment)
  | [], _, _, _ => .ok []
  | k :: rest, last_bpm, last_tempo, last_ts =>
    let events := (lookupKey changes k).getD ⟨none, none⟩
    let end_time := match rest with | [] => audio_duration_ms | k2 :: _ => k2
    let bpm2 := match events.tempo with | some tr => tr.bpm | none => last_bpm
    let tempo2 := match events.tempo with | some tr => some tr.tempo | none => last_tempo
    let ts2 := match events.time_signature with | some t => some t | none => last_ts
    match ts2 with
    | none => .error (("TypeError: NoneType object is not subscriptable").data)
    | some t =>
      match ctsGoE changes audio_duration_ms rest bpm2 tempo2 (some t) with
      | .error e => .error e
      | .ok segs =>
        .ok ({ start_ms := k, end_ms := end_time, duration_ms := end_time - k,
               bpm := bpm2, tempo := tempo2, time_signature := some t } :: segs)

/-- Model of `create_tempo_segments` (src/audio.py lines 40-99): iterate
`sorted(tempo_and_time_changes.keys())` building one segment per key; the
per-segment log f-string (line 96) subscripts the segment's time signature
unconditionally, raising `TypeError` whenever it is still `None`. -/
def create_tempo_segments (tempo_and_time_changes : List (ℚ × ChangeEvents))
    (audio_duration_ms : ℚ) (initial_bpm : ℚ) : Except (List Char) (List Segment) :=
  let keys := sortByKey id (tempo_and_time_changes.map Prod.fst)
  ctsGoE tempo_and_time_changes audio_duration_ms keys initial_bpm none none

/-! ## src/beatmap.py : segment materializer arithmetic -/

/-- Modelled from the spec: `second_to_beat` comes from the external
`synth_mapping_helper` library (outside this repository); the glossary
defines one beat as `60 / bpm` seconds, so `beats = seconds * bpm / 60`. -/
def second_to_beat (s bpm : ℚ) : ℚ := s * bpm / 60

/-- The leading-silence offset of `create_tempo_segment_with_audio`
(src/beatmap.py lines 36-60): `remainder = 2 % seconds_per_measure`, pad to
the next measure line when nonzero, and apply a zero offset to the very
first segment. -/
def create_tempo_segment_offset (bpm : ℚ) (time_signature : TimeSigDict)
    (start_ms : ℚ) : ℚ :=
  let seconds_per_beat := 60 / bpm
  let beats_per_measure := beats_per_measure_from_time_signature time_signature
  let seconds_per_measure := seconds_per_beat * (beats_per_measure : ℚ)
  let remainder := pyFMod 2 seconds_per_measure
  let time_to_next_1 := if remainder = 0 then 0 else seconds_per_measure - remainder
  if start_ms = 0 then 0 else (2 + time_to_next_1) * 1000

/-- The `start_beat` of `create_tempo_segment_with_audio` (src/beatmap.py
lines 72-80): `int(min_delay_beats // beats_per_measure) + 1` measures,
expressed in beats. -/
def segment_start_beat (bpm : ℚ) (time_signature : TimeSigDict) : ℤ :=
  let beats_per_measure := beats_per_measure_from_time_signature time_signature
  let min_delay_beats := second_to_beat 2 bpm
  let first_measure_after_delay := ⌊min_delay_beats / (beats_per_measure : ℚ)⌋ + 1
  first_measure_after_delay * beats_per_measure

/-- The `end_beat` of `create_tempo_segment_with_audio` (src/beatmap.py
lines 82-97): `ceil(floor(beats) / beats_per_measure) * beats_per_measure`,
clamped below by one measure, floor-divided back to measures, and shifted by
`start_beat` for a non-initial segment. -/
def segment_end_beat (segment_length_ms bpm : ℚ) (time_signature : TimeSigDict)
    (start_ms : ℚ) : ℤ :=
  let beats_per_measure := beats_per_measure_from_time_signature time_signature
  let total_beats0 :=
    ⌈(⌊second_to_beat (segment_length_ms / 1000) bpm⌋ : ℚ) / (beats_per_measure : ℚ)⌉
      * beats_per_measure
  let total_beats := if total_beats0 < beats_per_measure then beats_per_measure else total_beats0
  let end_beat := (Int.fdiv total_beats beats_per_measure) * beats_per_measure
  if start_ms ≠ 0 then end_beat + segment_start_beat bpm time_signature else end_beat

/-- Modelled from the spec (4.4, claim C6): the total leading-silence offset
written with the spec wording, for comparison with the code. -/
def spec_total_offset (bpm : ℚ) (time_signature : TimeSigDict) (start_ms : ℚ) : ℚ :=
  let beats_per_measure := beats_per_measure_from_time_signature time_signature
  let seconds_per_measure := 60 / bpm * (beats_per_measure : ℚ)
  let remainder := pyFMod 2 seconds_per_measure
  let extra_padding := if remainder = 0 then 0 else seconds_per_measure - remainder
  if start_ms = 0 then 0 else (2 + extra_padding) * 1000

/-- Modelled from the spec (4.4, claim C7): `end_beat` as the spec words it,
the beat-duration rounded DOWN to a whole number of measures (minimum one
measure), shifted by `start_beat` for a non-initial segment. -/
def spec_end_beat (segment_length_ms bpm : ℚ) (time_signature : TimeSigDict)
    (start_ms : ℚ) : ℤ :=
  let beats_per_measure := beats_per_measure_from_time_signature time_signature
  let beats := second_to_beat (segment_length_ms / 1000) bpm
  let down := ⌊beats / (beats_per_measure : ℚ)⌋ * beats_per_measure
  let base := if down < beats_per_measure then beats_per_measure else down
  if start_ms ≠ 0 then base + segment_start_beat bpm time_signature else base

/-! ## src/merging.py : merge ordering and join bookmarks -/

/-- Decode every filename of the merge input in order; the first decoding
failure propagates (the exception aborts the whole merge). -/
def parseAll : List (List Char) → Except (List Char) (List ParsedSegment)
  | [] => .ok []
  | f :: fs =>
    match parse_segment_filename f with
    | .error e => .error e
    | .ok i =>
      match parseAll fs with
      | .error e => .error e
      | .ok rest => .ok (i :: rest)

/-- The metadata-decoding and ordering stage of `merge_synth_segments`
(src/merging.py lines 53-66): decode every filename (a failure propagates),
sort ascending by the decoded `start_time`, and fail on an empty list. -/
def merge_segment_order (filenames : List (List Char)) :
    Except (List Char) (List ParsedSegment) :=
  match parseAll filenames with
  | .error e => .error e
  | .ok infos =>
    let sorted := sortByKey (fun i => i.start_time) infos
    if sorted = [] then .error ("No segments provided").data else .ok sorted

/-- The join bookmark label of `merge_synth_segments` (src/merging.py lines
81-83 and 129): `beats_per_measure` is the raw decoded numerator and the
label always renders `f"{bpm} BPM || Time Signature {beats_per_measure}/{4}"`
with the literal denominator 4.  `file_bpm` is the string rendering of the
loaded segment file BPM (external float repr). -/
def merge_bookmark_label (file_bpm : List Char) (info : ParsedSegment) : List Char :=
  let beats_per_measure := info.time_signature.numerator
  file_bpm ++ (" BPM || Time Signature ").data
    ++ natDigits beats_per_measure ++ '/' :: natDigits 4

/-! ## Concrete example inputs used by the witnesses -/

/-- A two-key change map: a tempo and time signature at 0 ms and a bare key
at 5000 ms. -/
def exampleChanges : List (ℚ × ChangeEvents) :=
  [(0, ⟨some ⟨0, 120, 500000⟩, some ⟨4, 4⟩⟩), (5000, ⟨none, none⟩)]

/-- Example segment filenames with start times 10 s, 0 s and 5 s. -/
def exampleSegFile1 : List Char :=
  ("A_1_BPM100_TimeSignature4-4_10s-11s_dur1s_Segment.synth").data

def exampleSegFile2 : List Char :=
  ("A_2_BPM100_TimeSignature4-4_0s-1s_dur1s_Segment.synth").data

def exampleSegFile3 : List Char :=
  ("A_3_BPM100_TimeSignature4-4_5s-6s_dur1s_Segment.synth").data

/-- The decoded metadata of the example segment filenames. -/
def exampleInfo1 : ParsedSegment :=
  ⟨("A").data, 0 + 1, ((10000 : ℕ) : ℚ) / 100, ⟨4, 4⟩, ((10000 : ℕ) : ℚ) / 1000,
    ((11000 : ℕ) : ℚ) / 1000, ((1000 : ℕ) : ℚ) / 1000, ("synth").data⟩

def exampleInfo2 : ParsedSegment :=
  ⟨("A").data, 1 + 1, ((10000 : ℕ) : ℚ) / 100, ⟨4, 4⟩, ((0 : ℕ) : ℚ) / 1000,
    ((1000 : ℕ) : ℚ) / 1000, ((1000 : ℕ) : ℚ) / 1000, ("synth").data⟩

def exampleInfo3 : ParsedSegment :=
  ⟨("A").data, 2 + 1, ((10000 : ℕ) : ℚ) / 100, ⟨4, 4⟩, ((5000 : ℕ) : ℚ) / 1000,
    ((6000 : ℕ) : ℚ) / 1000, ((1000 : ℕ) : ℚ) / 1000, ("synth").data⟩

/-! ## Lemmas: decimal digit strings -/

theorem digitVal_digitChar {n : ℕ} (h : n < 10) : digitVal (digitChar n) = n := by
  interval_cases n <;> rfl

theorem isDigitChar_digitChar {n : ℕ} (h : n < 10) : isDigitChar (digitChar n) = true := by
  interval_cases n <;> rfl

theorem natDigitsGo_eq_natDigits : ∀ n f, n < f → natDigitsGo f n = natDigits n := by
  intro n
  induction n using Nat.strong_induction_on with
  | _ n ih =>
    intro f hf
    match f, hf with
    | f + 1, _ =>
      by_cases h10 : n < 10
      · simp [natDigitsGo, natDigits, h10]
      · have hdiv : n / 10 < n := Nat.div_lt_self (by omega) (by omega)
        have h1 : natDigitsGo f (n / 10) = natDigits (n / 10) := ih (n / 10) hdiv f (by omega)
        have h2 : natDigitsGo n (n / 10) = natDigits (n / 10) := ih (n / 10) hdiv n (by omega)
        have e1 : natDigitsGo (f + 1) n = natDigitsGo f (n / 10) ++ [digitChar (n % 10)] := by
          simp [natDigitsGo, h10]
        have e2 : natDigitsGo (n + 1) n = natDigitsGo n (n / 10) ++ [digitChar (n % 10)] := by
          simp [natDigitsGo, h10]
        rw [natDigits, e1, e2, h1, h2]

theorem natDigits_def (n : ℕ) :
    natDigits n = if n < 10 then [digitChar n]
                  else natDigits (n / 10) ++ [digitChar (n % 10)] := by
  by_cases h : n < 10
  · simp [natDigits, natDigitsGo, h]
  · have hdiv : n / 10 < n := Nat.div_lt_self (by omega) (by omega)
    simp [natDigits, natDigitsGo, h, natDigitsGo_eq_natDigits (n / 10) n hdiv]

theorem natDigits_ne_nil (n : ℕ) : natDigits n ≠ [] := by
  rw [natDigits_def]; split <;> simp

theorem mem_natDigits_isDigit : ∀ n, ∀ c ∈ natDigits n, isDigitChar c = true := by
  intro n
  induction n using Nat.strong_induction_on with
  | _ n ih =>
    intro c hc
    rw [natDigits_def] at hc
    by_cases h10 : n < 10
    · simp [h10] at hc
      subst hc; exact isDigitChar_digitChar h10
    · simp [h10] at hc
      cases hc with
      | inl h => exact ih (n / 10) (Nat.div_lt_self (by omega) (by omega)) c h
      | inr h => subst h; exact isDigitChar_digitChar (Nat.mod_lt _ (by omega))

theorem foldl_digits (l : List Char) (a : ℕ) :
    l.foldl (fun a c => 10 * a + digitVal c) a = a * 10 ^ l.length + natOfDigits l := by
  induction l generalizing a with
  | nil => simp [natOfDigits]
  | cons c l ih =>
    have h0 : natOfDigits (c :: l) = digitVal c * 10 ^ l.length + natOfDigits l := by
      show List.foldl _ (10 * 0 + digitVal c) l = _
      rw [ih]; ring_nf
    simp only [List.foldl_cons, ih, h0, List.length_cons]
    ring

theorem natOfDigits_cons (c : Char) (l : List Char) :
    natOfDigits (c :: l) = digitVal c * 10 ^ l.length + natOfDigits l := by
  show List.foldl _ (10 * 0 + digitVal c) l = _
  rw [foldl_digits]; ring_nf

theorem natOfDigits_append (l₁ l₂ : List Char) :
    natOfDigits (l₁ ++ l₂) = natOfDigits l₁ * 10 ^ l₂.length + natOfDigits l₂ := by
  show List.foldl _ 0 (l₁ ++ l₂) = _
  rw [List.foldl_append, foldl_digits]
  rfl

theorem natOfDigits_concat (l : List Char) (c : Char) :
    natOfDigits (l ++ [c]) = 10 * natOfDigits l + digitVal c := by
  rw [natOfDigits_append]
  simp [natOfDigits_cons, natOfDigits]
  ring

theorem natOfDigits_natDigits (n : ℕ) : natOfDigits (natDigits n) = n := by
  induction n using Nat.strong_induction_on with
  | _ n ih =>
    rw [natDigits_def]
    by_cases h10 : n < 10
    · simp [h10, natOfDigits_cons, natOfDigits, digitVal_digitChar h10]
    · simp [h10, natOfDigits_concat,
            ih (n / 10) (Nat.div_lt_self (by omega) (by omega)),
            digitVal_digitChar (Nat.mod_lt n (by omega) : n % 10 < 10)]
      omega

theorem natOfDigits_replicate_zero (k : ℕ) : natOfDigits (List.replicate k '0') = 0 := by
  induction k with
  | zero => rfl
  | succ k ih =>
    have h0 : digitVal '0' = 0 := rfl
    rw [List.replicate_succ, natOfDigits_cons, ih, h0]
    ring

theorem natOfDigits_padLeftZeros (w : ℕ) (l : List Char) :
    natOfDigits (padLeftZeros w l) = natOfDigits l := by
  rw [padLeftZeros, natOfDigits_append, natOfDigits_replicate_zero]
  simp

theorem natDigits_length_le : ∀ p n, 0 < p → n < 10 ^ p → (natDigits n).length ≤ p := by
  intro p
  induction p with
  | zero => omega
  | succ p ih =>
    intro n _ hn
    rw [natDigits_def]
    by_cases h10 : n < 10
    · simp [h10]
    · have hp : 0 < p := by
        rcases Nat.eq_zero_or_pos p with h | h
        · subst h; rw [pow_one] at hn; omega
        · exact h
      have hdiv : n / 10 < 10 ^ p := by
        rw [pow_succ] at hn
        omega
      simp only [h10, if_false, List.length_append, List.length_cons, List.length_nil]
      have := ih (n / 10) hp hdiv
      omega

theorem padLeftZeros_length (w : ℕ) (l : List Char) (h : l.length ≤ w) :
    (padLeftZeros w l).length = w := by
  simp [padLeftZeros]; omega

theorem mem_padLeftZeros_isDigit (w : ℕ) (l : List Char)
    (hl : ∀ c ∈ l, isDigitChar c = true) :
    ∀ c ∈ padLeftZeros w l, isDigitChar c = true := by
  intro c hc
  rcases List.mem_append.mp hc with h | h
  · have := List.eq_of_mem_replicate h
    subst this; rfl
  · exact hl c h

theorem isDigit_ne_of_not_digit {c d : Char} (hc : isDigitChar c = true)
    (hd : isDigitChar d = false) : c ≠ d := by
  intro h; rw [h] at hc; rw [hc] at hd; cases hd
/-! ## Lemmas: maximal munch and trailing-strip behaviour -/

theorem takeWhile_digits_append (A : List Char) (b : Char) (B : List Char)
    (hA : ∀ c ∈ A, isDigitChar c = true) (hb : isDigitChar b = false) :
    List.takeWhile (fun c => isDigitChar c) (A ++ b :: B) = A := by
  induction A with
  | nil => simp [List.takeWhile_cons, hb]
  | cons a A ih =>
    have ha : isDigitChar a = true := hA a (by simp)
    have ih2 := ih (fun c hc => hA c (by simp [hc]))
    simp [List.takeWhile_cons, ha, ih2]

theorem dropWhile_digits_append (A : List Char) (b : Char) (B : List Char)
    (hA : ∀ c ∈ A, isDigitChar c = true) (hb : isDigitChar b = false) :
    List.dropWhile (fun c => isDigitChar c) (A ++ b :: B) = b :: B := by
  induction A with
  | nil => simp [List.dropWhile_cons, hb]
  | cons a A ih =>
    have ha : isDigitChar a = true := hA a (by simp)
    have ih2 := ih (fun c hc => hA c (by simp [hc]))
    simp [List.dropWhile_cons, ha, ih2]

theorem takeDigits_append_cons (A : List Char) (b : Char) (B : List Char)
    (hA : ∀ c ∈ A, isDigitChar c = true) (hb : isDigitChar b = false) :
    takeDigits (A ++ b :: B) = (A, b :: B) := by
  simp [takeDigits, takeWhile_digits_append A b B hA hb, dropWhile_digits_append A b B hA hb]

theorem dropWhile_append_neg (p : Char → Bool) (R : List Char) (d : Char)
    (hd : p d = false) (S : List Char) :
    List.dropWhile p (R ++ d :: S) = List.dropWhile p R ++ d :: S := by
  induction R with
  | nil => simp [List.dropWhile_cons, hd]
  | cons r R ih =>
    by_cases hr : p r
    · simp [List.dropWhile_cons, hr, ih]
    · simp [List.dropWhile_cons, hr]

theorem dropWhile_cons_of_neg (p : Char → Bool) {x : Char} (hx : p x = false)
    (xs : List Char) : List.dropWhile p (x :: xs) = x :: xs := by
  simp [List.dropWhile_cons, hx]

theorem rstripChar_concat_self (c : Char) (l : List Char) :
    rstripChar c (l ++ [c]) = rstripChar c l := by
  simp [rstripChar, List.dropWhile_cons]

theorem rstripChar_concat_ne (c : Char) (l : List Char) {x : Char} (hx : x ≠ c) :
    rstripChar c (l ++ [x]) = l ++ [x] := by
  have hxc : (x == c) = false := by simp [hx]
  simp [rstripChar, List.dropWhile_cons, hxc]

theorem rstripChar_replicate (c : Char) (k : ℕ) :
    rstripChar c (List.replicate k c) = [] := by
  induction k with
  | zero => rfl
  | succ k ih =>
    have : List.replicate (k + 1) c = List.replicate k c ++ [c] := by
      rw [← List.replicate_succ']
    rw [this, rstripChar_concat_self, ih]

theorem rstripChar_all_ne (c : Char) (l : List Char)
    (h : ∀ x ∈ l, (x == c) = false) : rstripChar c l = l := by
  unfold rstripChar
  cases hrev : l.reverse with
  | nil =>
    have : l = [] := by simpa using congrArg List.reverse hrev
    simp [this]
  | cons x xs =>
    have hx : x ∈ l := by
      have : x ∈ l.reverse := by rw [hrev]; simp
      simpa using this
    rw [dropWhile_cons_of_neg (fun y => y == c) (h x hx) xs, ← hrev, List.reverse_reverse]

theorem rstripChar_append_of_ne_nil (c : Char) (A B : List Char) (hB : B ≠ [])
    (h : ∀ x ∈ B, (x == c) = false) : rstripChar c (A ++ B) = A ++ B := by
  unfold rstripChar
  rw [List.reverse_append]
  cases hrev : B.reverse with
  | nil =>
    exact absurd (by simpa using congrArg List.reverse hrev) hB
  | cons x xs =>
    have hx : x ∈ B := by
      have : x ∈ B.reverse := by rw [hrev]; simp
      simpa using this
    rw [List.cons_append, dropWhile_cons_of_neg (fun y => y == c) (h x hx) _]
    have hB2 : B = (x :: xs).reverse := by simpa using congrArg List.reverse hrev
    rw [hB2]
    simp

/-- Trailing-zero stripping on a digit string keeps the numeric value up to
the dropped power of ten, keeps the digit alphabet, and never empties a
string with a nonzero value. -/
theorem stripZeros_spec (L : List Char) (hL : ∀ c ∈ L, isDigitChar c = true)
    (hk : natOfDigits L ≠ 0) :
    (∀ c ∈ rstripChar '0' L, isDigitChar c = true) ∧ rstripChar '0' L ≠ [] ∧
      (rstripChar '0' L).length ≤ L.length ∧
      natOfDigits (rstripChar '0' L) * 10 ^ (L.length - (rstripChar '0' L).length)
        = natOfDigits L := by
  induction L using List.reverseRecOn with
  | nil => simp [natOfDigits] at hk
  | append_singleton L x ih =>
    by_cases hx : x = '0'
    · subst hx
      have hv : natOfDigits (L ++ ['0']) = 10 * natOfDigits L := by
        have h0 : digitVal '0' = 0 := rfl
        rw [natOfDigits_concat, h0]
        ring
      have hL2 : ∀ c ∈ L, isDigitChar c = true := fun c hc => hL c (by simp [hc])
      have hk2 : natOfDigits L ≠ 0 := by
        intro h; rw [hv, h] at hk; simp at hk
      obtain ⟨d1, d2, d3, d4⟩ := ih hL2 hk2
      rw [rstripChar_concat_self]
      refine ⟨d1, d2, ?_, ?_⟩
      · simp; omega
      · have hlen : (L ++ ['0']).length - (rstripChar '0' L).length
            = (L.length - (rstripChar '0' L).length) + 1 := by
          simp; omega
        rw [hlen, hv, pow_succ, ← mul_assoc, d4]
        ring
    · rw [rstripChar_concat_ne '0' L hx]
      refine ⟨hL, by simp, le_refl _, ?_⟩
      simp

theorem natOfDigits_nil : natOfDigits [] = 0 := rfl

/-- Shape of the trimmed fixed-point rendering: plain digits of the integer
part when the fraction vanishes, digits-dot-trimmed-fraction otherwise. -/
theorem trimmedDec_shape (p v : ℕ) (hp : 0 < p) :
    (v % 10 ^ p = 0 → trimmedDec p v = natDigits (v / 10 ^ p)) ∧
    (v % 10 ^ p ≠ 0 →
      trimmedDec p v
        = natDigits (v / 10 ^ p)
            ++ '.' :: rstripChar '0' (padLeftZeros p (natDigits (v % 10 ^ p)))) := by
  have hID_ne_dot : ∀ x ∈ natDigits (v / 10 ^ p), (x == '.') = false := by
    intro x hx
    have hd := mem_natDigits_isDigit _ x hx
    simp [isDigit_ne_of_not_digit hd (by decide : isDigitChar '.' = false)]
  have hd : ∀ l₂ : List Char, rstripChar '0' (natDigits (v / 10 ^ p) ++ '.' :: l₂)
      = natDigits (v / 10 ^ p) ++ '.' :: rstripChar '0' l₂ := by
    intro l₂
    unfold rstripChar
    rw [List.reverse_append, List.reverse_cons, List.append_assoc, List.singleton_append,
      dropWhile_append_neg (fun x => x == '0') l₂.reverse '.' (by decide)
        (natDigits (v / 10 ^ p)).reverse]
    simp [List.reverse_append]
  constructor
  · intro h0
    have hfrac : padLeftZeros p (natDigits (v % 10 ^ p)) = List.replicate p '0' := by
      rw [h0]
      have h1 : natDigits 0 = ['0'] := rfl
      rw [padLeftZeros, h1, ← List.replicate_succ']
      congr 1
      simp only [List.length_singleton]
      omega
    show rstripChar '.' (rstripChar '0' (fixedDec p v)) = _
    rw [fixedDec, hfrac, hd (List.replicate p '0'), rstripChar_replicate]
    rw [rstripChar_concat_self]
    exact rstripChar_all_ne '.' _ hID_ne_dot
  · intro h0
    have hfd : ∀ c ∈ padLeftZeros p (natDigits (v % 10 ^ p)), isDigitChar c = true :=
      mem_padLeftZeros_isDigit _ _ (mem_natDigits_isDigit _)
    have hval : natOfDigits (padLeftZeros p (natDigits (v % 10 ^ p))) = v % 10 ^ p := by
      rw [natOfDigits_padLeftZeros, natOfDigits_natDigits]
    obtain ⟨g1, g2, _, _⟩ := stripZeros_spec _ hfd (by rw [hval]; exact h0)
    have hG_ne_dot : ∀ x ∈ rstripChar '0' (padLeftZeros p (natDigits (v % 10 ^ p))),
        (x == '.') = false := by
      intro x hx
      simp [isDigit_ne_of_not_digit (g1 x hx) (by decide : isDigitChar '.' = false)]
    show rstripChar '.' (rstripChar '0' (fixedDec p v)) = _
    rw [fixedDec, hd]
    rw [show natDigits (v / 10 ^ p)
          ++ '.' :: rstripChar '0' (padLeftZeros p (natDigits (v % 10 ^ p)))
        = (natDigits (v / 10 ^ p) ++ ['.'])
          ++ rstripChar '0' (padLeftZeros p (natDigits (v % 10 ^ p))) from by simp]
    rw [rstripChar_append_of_ne_nil '.' _ _ g2 hG_ne_dot]

/-- Value of a trailing-zero-stripped fraction group, rescaled to the full
precision denominator. -/
theorem fracValue_of_strip (p : ℕ) (G : List Char) (r : ℕ) (hle : G.length ≤ p)
    (hval : natOfDigits G * 10 ^ (p - G.length) = r) :
    (natOfDigits G : ℚ) / 10 ^ G.length = (r : ℚ) / 10 ^ p := by
  rw [div_eq_div_iff (by positivity) (by positivity)]
  have hexp : p - G.length + G.length = p := by omega
  have hnat2 : natOfDigits G * 10 ^ p = r * 10 ^ G.length := by
    calc natOfDigits G * 10 ^ p
        = natOfDigits G * (10 ^ (p - G.length) * 10 ^ G.length) := by
          rw [← pow_add, hexp]
      _ = natOfDigits G * 10 ^ (p - G.length) * 10 ^ G.length := by ring
      _ = r * 10 ^ G.length := by rw [hval]
  exact_mod_cast congrArg (fun n : ℕ => (n : ℚ)) hnat2

/-- Matching a trimmed decimal rendering followed by a non-digit, non-dot
character: the number group is consumed exactly and its value is `v / 10^p`. -/
theorem numberText_trimmedDec (p v : ℕ) (hp : 0 < p) (b : Char)
    (hb : isDigitChar b = false) (hbd : b ≠ '.') (rest : List Char) :
    ∃ parts, numberText (trimmedDec p v ++ b :: rest) = some (parts, b :: rest) ∧
      ratOfParts parts = (v : ℚ) / 10 ^ p := by
  obtain ⟨h0case, h1case⟩ := trimmedDec_shape p v hp
  by_cases h0 : v % 10 ^ p = 0
  · refine ⟨(natDigits (v / 10 ^ p), []), ?_, ?_⟩
    · rw [h0case h0]
      unfold numberText
      rw [takeDigits_append_cons _ b rest (mem_natDigits_isDigit _) hb]
      simp [natDigits_ne_nil, hbd]
    · have hdvd : 10 ^ p ∣ v := Nat.dvd_of_mod_eq_zero h0
      simp only [ratOfParts, natOfDigits_natDigits, natOfDigits_nil, List.length_nil,
        pow_zero, Nat.cast_zero, zero_div, add_zero]
      rw [Nat.cast_div hdvd (by positivity)]
      push_cast
      ring
  · have hmodlt : v % 10 ^ p < 10 ^ p := Nat.mod_lt _ (by positivity)
    have hfd : ∀ c ∈ padLeftZeros p (natDigits (v % 10 ^ p)), isDigitChar c = true :=
      mem_padLeftZeros_isDigit _ _ (mem_natDigits_isDigit _)
    have hval : natOfDigits (padLeftZeros p (natDigits (v % 10 ^ p))) = v % 10 ^ p := by
      rw [natOfDigits_padLeftZeros, natOfDigits_natDigits]
    obtain ⟨g1, g2, g3, g4⟩ := stripZeros_spec _ hfd (by rw [hval]; exact h0)
    have hlenP : (padLeftZeros p (natDigits (v % 10 ^ p))).length = p :=
      padLeftZeros_length _ _ (natDigits_length_le p _ hp hmodlt)
    refine ⟨(natDigits (v / 10 ^ p), rstripChar '0' (padLeftZeros p (natDigits (v % 10 ^ p)))),
      ?_, ?_⟩
    · rw [h1case h0]
      unfold numberText
      rw [List.append_assoc, List.cons_append,
        takeDigits_append_cons _ '.' _ (mem_natDigits_isDigit _) (by decide)]
      simp [natDigits_ne_nil, takeDigits_append_cons _ b rest g1 hb, g2]
    · have key := fracValue_of_strip (padLeftZeros p (natDigits (v % 10 ^ p))).length
        (rstripChar '0' (padLeftZeros p (natDigits (v % 10 ^ p))))
        (natOfDigits (padLeftZeros p (natDigits (v % 10 ^ p)))) g3 g4
      rw [hval, hlenP] at key
      have hsplit : ((10:ℚ)) ^ p * ((v / 10 ^ p : ℕ) : ℚ) + ((v % 10 ^ p : ℕ) : ℚ) = (v : ℚ) := by
        exact_mod_cast Nat.div_add_mod v (10 ^ p)
      simp only [ratOfParts, natOfDigits_natDigits]
      rw [key]
      field_simp
      linear_combination hsplit

/-! ## Lemmas: the hand-compiled matcher on encoded filenames -/

theorem dropLit_nil (l : List Char) : dropLit [] l = some l := rfl

theorem dropLit_cons_self (c : Char) (cs l : List Char) :
    dropLit (c :: cs) (c :: l) = dropLit cs l := by
  simp [dropLit]

theorem takeWhile_all {α : Type} (p : α → Bool) (l : List α) (h : ∀ c ∈ l, p c = true) :
    l.takeWhile p = l := by
  induction l with
  | nil => rfl
  | cons a l ih =>
    simp [List.takeWhile_cons, h a (by simp), ih (fun c hc => h c (by simp [hc]))]

/-- `tailMatch` on the encoded time/extension tail consumes each component
exactly and returns the three time groups and the extension. -/
theorem tailMatch_encoded (g2 : List Char) (g3 : List Char × List Char)
    (g45 : Option (List Char × List Char)) (s e d : ℕ) (ext : List Char)
    (hext_ne : ext ≠ []) (hext : ∀ c ∈ ext, c ≠ '\n') :
    ∃ S E D,
      tailMatch g2 g3 g45
        ('_' :: (trimmedDec 3 s ++ 's' :: '-' ::
          (trimmedDec 3 e ++ litSDur ++ (trimmedDec 3 d ++ litSSegmentDot ++ ext))))
        = some ⟨g2, g3, g45, S, E, D, ext⟩
      ∧ ratOfParts S = (s : ℚ) / 1000 ∧ ratOfParts E = (e : ℚ) / 1000
      ∧ ratOfParts D = (d : ℚ) / 1000 := by
  obtain ⟨S, hS1, hS2⟩ := numberText_trimmedDec 3 s (by omega) 's' (by decide) (by decide)
    ('-' :: (trimmedDec 3 e ++ ('s' :: '_' :: 'd' :: 'u' :: 'r' ::
      (trimmedDec 3 d ++ ('s' :: '_' :: 'S' :: 'e' :: 'g' :: 'm' :: 'e' :: 'n' :: 't' :: '.' :: ext)))))
  obtain ⟨E, hE1, hE2⟩ := numberText_trimmedDec 3 e (by omega) 's' (by decide) (by decide)
    ('_' :: 'd' :: 'u' :: 'r' ::
      (trimmedDec 3 d ++ ('s' :: '_' :: 'S' :: 'e' :: 'g' :: 'm' :: 'e' :: 'n' :: 't' :: '.' :: ext)))
  obtain ⟨D, hD1, hD2⟩ := numberText_trimmedDec 3 d (by omega) 's' (by decide) (by decide)
    ('_' :: 'S' :: 'e' :: 'g' :: 'm' :: 'e' :: 'n' :: 't' :: '.' :: ext)
  refine ⟨S, E, D, ?_, hS2, hE2, hD2⟩
  have hTW : ext.takeWhile (fun c => c ≠ '\n') = ext := by
    apply takeWhile_all
    intro c hc
    simpa using hext c hc
  simp only [tailMatch, litSDur, litSSegmentDot, List.cons_append, List.append_assoc,
    List.nil_append, dropLit_cons_self, dropLit_nil, hS1, hE1, hD1, hTW]
  simp [hext_ne]

theorem padLeftZeros_ne_nil (w : ℕ) (n : ℕ) : padLeftZeros w (natDigits n) ≠ [] := by
  simp [padLeftZeros, natDigits_ne_nil]

/-- `restMatch` on the encoded remainder after the base name consumes the
zero-padded index, the BPM, the time-signature pair and the tail exactly. -/
theorem restMatch_encoded (index total_count bpm100 num den s e d : ℕ) (ext : List Char)
    (hext_ne : ext ≠ []) (hext : ∀ c ∈ ext, c ≠ '\n') :
    ∃ B S E D,
      restMatch ('_' :: (padLeftZeros (natDigits total_count).length (natDigits (index + 1))
          ++ (litBPM ++ (trimmedDec 2 bpm100
          ++ (litTimeSignature ++ (natDigits num ++ ('-' :: (natDigits den
          ++ ('_' :: (trimmedDec 3 s ++ 's' :: '-' ::
              (trimmedDec 3 e ++ litSDur
                ++ (trimmedDec 3 d ++ litSSegmentDot ++ ext))))))))))))
        = some ⟨padLeftZeros (natDigits total_count).length (natDigits (index + 1)), B,
                some (natDigits num, natDigits den), S, E, D, ext⟩
      ∧ ratOfParts B = (bpm100 : ℚ) / 100
      ∧ ratOfParts S = (s : ℚ) / 1000 ∧ ratOfParts E = (e : ℚ) / 1000
      ∧ ratOfParts D = (d : ℚ) / 1000 := by
  obtain ⟨B, hB1, hB2⟩ := numberText_trimmedDec 2 bpm100 (by omega) '_' (by decide) (by decide)
    ('T' :: 'i' :: 'm' :: 'e' :: 'S' :: 'i' :: 'g' :: 'n' :: 'a' :: 't' :: 'u' :: 'r' :: 'e' ::
      (natDigits num ++ ('-' :: (natDigits den
        ++ ('_' :: (trimmedDec 3 s ++ 's' :: '-' ::
            (trimmedDec 3 e ++ litSDur ++ (trimmedDec 3 d ++ litSSegmentDot ++ ext))))))))
  obtain ⟨S, E, D, hT1, hT2, hT3, hT4⟩ := tailMatch_encoded
    (padLeftZeros (natDigits total_count).length (natDigits (index + 1))) B
    (some (natDigits num, natDigits den)) s e d ext hext_ne hext
  refine ⟨B, S, E, D, ?_, hB2, hT2, hT3, hT4⟩
  have hpad : takeDigits (padLeftZeros (natDigits total_count).length (natDigits (index + 1))
      ++ '_' :: ('B' :: 'P' :: 'M' :: (trimmedDec 2 bpm100
        ++ (litTimeSignature ++ (natDigits num ++ ('-' :: (natDigits den
        ++ ('_' :: (trimmedDec 3 s ++ 's' :: '-' ::
            (trimmedDec 3 e ++ litSDur
              ++ (trimmedDec 3 d ++ litSSegmentDot ++ ext)))))))))))
      = (padLeftZeros (natDigits total_count).length (natDigits (index + 1)),
         '_' :: ('B' :: 'P' :: 'M' :: (trimmedDec 2 bpm100
          ++ (litTimeSignature ++ (natDigits num ++ ('-' :: (natDigits den
          ++ ('_' :: (trimmedDec 3 s ++ 's' :: '-' ::
              (trimmedDec 3 e ++ litSDur
                ++ (trimmedDec 3 d ++ litSSegmentDot ++ ext))))))))))) :=
    takeDigits_append_cons _ '_' _
      (mem_padLeftZeros_isDigit _ _ (mem_natDigits_isDigit _)) (by decide)
  have hnum : takeDigits (natDigits num ++ '-' :: (natDigits den
      ++ ('_' :: (trimmedDec 3 s ++ 's' :: '-' ::
          (trimmedDec 3 e ++ litSDur ++ (trimmedDec 3 d ++ litSSegmentDot ++ ext))))))
      = (natDigits num, '-' :: (natDigits den
        ++ ('_' :: (trimmedDec 3 s ++ 's' :: '-' ::
          (trimmedDec 3 e ++ litSDur ++ (trimmedDec 3 d ++ litSSegmentDot ++ ext)))))) :=
    takeDigits_append_cons _ '-' _ (mem_natDigits_isDigit _) (by decide)
  have hden : takeDigits (natDigits den
      ++ '_' :: (trimmedDec 3 s ++ 's' :: '-' ::
          (trimmedDec 3 e ++ litSDur ++ (trimmedDec 3 d ++ litSSegmentDot ++ ext))))
      = (natDigits den, '_' :: (trimmedDec 3 s ++ 's' :: '-' ::
          (trimmedDec 3 e ++ litSDur ++ (trimmedDec 3 d ++ litSSegmentDot ++ ext)))) :=
    takeDigits_append_cons _ '_' _ (mem_natDigits_isDigit _) (by decide)
  simp only [litBPM, litTimeSignature, litSDur, litSSegmentDot, List.cons_append,
    List.nil_append, List.append_assoc] at hpad hnum hden hB1 hT1
  simp only [restMatch, litBPM, litTimeSignature, litSDur, litSSegmentDot, List.cons_append,
    List.nil_append, List.append_assoc, dropLit_cons_self, dropLit_nil, hpad, hnum, hden,
    hB1, hT1]
  simp [padLeftZeros_ne_nil, natDigits_ne_nil]

theorem restMatch_not_us (x : Char) (l : List Char) (hx : x ≠ '_') :
    restMatch (x :: l) = none := by
  unfold restMatch
  have h1 : dropLit ['_'] (x :: l) = none := by simp [dropLit, hx]
  rw [h1]

/-- The shortest-first split lands exactly after the base name: no shorter
candidate can match (the next character inside the base name is not `_`),
and the full base name is followed by a matching remainder. -/
theorem scanSplit_stem : ∀ (stem : List Char), stem ≠ [] →
    (∀ c ∈ stem, c ≠ '_' ∧ c ≠ '\n') →
    ∀ (R : List Char) (G : RawGroups), restMatch ('_' :: R) = some G →
    ∀ acc, scanSplit acc (stem ++ '_' :: R) = some (acc ++ stem, G) := by
  intro stem
  induction stem with
  | nil => intro h; exact absurd rfl h
  | cons a stem ih =>
    intro _ hstem R G hR acc
    have ha : a ≠ '\n' := (hstem a (by simp)).2
    rw [List.cons_append]
    simp only [scanSplit, if_neg ha]
    cases stem with
    | nil =>
      simp only [List.nil_append]
      rw [hR]
    | cons b stem2 =>
      have hb : b ≠ '_' := (hstem b (by simp)).1
      rw [List.cons_append, restMatch_not_us b _ hb]
      have hrec := ih (by simp) (fun c hc => hstem c (by simp [hc])) R G hR (acc ++ [a])
      rw [List.cons_append] at hrec
      rw [hrec]
      simp

/-- Encode-then-decode round-trip for valid metadata with a present time
signature: the helper behind claims C1 and C8. -/
theorem parse_generate_roundtrip (stem ext : List Char)
    (index total_count bpm100 num den start_ms end_ms duration_ms : ℕ)
    (hstem_ne : stem ≠ []) (hstem : ∀ c ∈ stem, c ≠ '_' ∧ c ≠ '\n')
    (hext_ne : ext ≠ []) (hext : ∀ c ∈ ext, c ≠ '\n')
    (hbpm : bpm100 ≤ 999999) :
    parse_segment_filename
      (generate_segment_filename stem ext index total_count
        ⟨bpm100, some ⟨num, den⟩, start_ms, end_ms, duration_ms⟩)
      = .ok ⟨stem, index + 1, (bpm100 : ℚ) / 100, ⟨num, den⟩,
             (start_ms : ℚ) / 1000, (end_ms : ℚ) / 1000, (duration_ms : ℚ) / 1000, ext⟩ := by
  obtain ⟨B, S, E, D, hR, hB, hS, hE, hD⟩ :=
    restMatch_encoded index total_count bpm100 num den start_ms end_ms duration_ms ext
      hext_ne hext
  have hscan := scanSplit_stem stem hstem_ne hstem _ _ hR []
  have hshape : generate_segment_filename stem ext index total_count
      ⟨bpm100, some ⟨num, den⟩, start_ms, end_ms, duration_ms⟩
      = stem ++ '_' :: (padLeftZeros (natDigits total_count).length (natDigits (index + 1))
          ++ (litBPM ++ (trimmedDec 2 bpm100
          ++ (litTimeSignature ++ (natDigits num ++ ('-' :: (natDigits den
          ++ ('_' :: (trimmedDec 3 start_ms ++ 's' :: '-' ::
              (trimmedDec 3 end_ms ++ litSDur
                ++ (trimmedDec 3 duration_ms ++ litSSegmentDot ++ ext))))))))))) := by
    simp [generate_segment_filename, tsStrPart, List.append_assoc]
  rw [hshape]
  unfold parse_segment_filename
  rw [hscan]
  simp only [List.nil_append]
  simp [natOfDigits_padLeftZeros, natOfDigits_natDigits, hB, hS, hE, hD]

/-- C1 (amended): encode-then-decode round-trip for valid metadata whose
time signature is present.  Valid means: nonempty base name without `_` or
newline (the grammar cannot re-split such a name), nonempty extension
without newline, BPM with at most two decimals and at most six significant
digits (the `%g` regime), and times that are whole milliseconds. -/
theorem c1_roundtrip_amended (stem ext : List Char)
    (index total_count bpm100 num den start_ms end_ms duration_ms : ℕ)
    (hstem_ne : stem ≠ []) (hstem : ∀ c ∈ stem, c ≠ '_' ∧ c ≠ '\n')
    (hext_ne : ext ≠ []) (hext : ∀ c ∈ ext, c ≠ '\n')
    (hbpm : bpm100 ≤ 999999) :
    parse_segment_filename
      (generate_segment_filename stem ext index total_count
        ⟨bpm100, some ⟨num, den⟩, start_ms, end_ms, duration_ms⟩)
      = .ok ⟨stem, index + 1, (bpm100 : ℚ) / 100, ⟨num, den⟩,
             (start_ms : ℚ) / 1000, (end_ms : ℚ) / 1000, (duration_ms : ℚ) / 1000, ext⟩ :=
  parse_generate_roundtrip stem ext index total_count bpm100 num den start_ms end_ms
    duration_ms hstem_ne hstem hext_ne hext hbpm

/-! ## Lemmas: the stable key sort -/

theorem insertByKey_perm {α : Type} (key : α → ℚ) (x : α) (l : List α) :
    (insertByKey key x l).Perm (x :: l) := by
  induction l with
  | nil => simp [insertByKey]
  | cons y ys ih =>
    unfold insertByKey
    by_cases h : key y ≤ key x
    · rw [if_pos h]
      exact (ih.cons y).trans (List.Perm.swap x y ys)
    · rw [if_neg h]

theorem insertByKey_mem {α : Type} (key : α → ℚ) (x : α) (l : List α) (a : α)
    (ha : a ∈ insertByKey key x l) : a = x ∨ a ∈ l :=
  List.mem_cons.mp ((insertByKey_perm key x l).mem_iff.mp ha)

theorem insertByKey_pairwise {α : Type} (key : α → ℚ) (x : α) (l : List α)
    (hl : List.Pairwise (fun a b => key a ≤ key b) l) :
    List.Pairwise (fun a b => key a ≤ key b) (insertByKey key x l) := by
  induction l with
  | nil => simp [insertByKey]
  | cons y ys ih =>
    unfold insertByKey
    obtain ⟨hy, hys⟩ := List.pairwise_cons.mp hl
    by_cases h : key y ≤ key x
    · rw [if_pos h]
      refine List.pairwise_cons.mpr ⟨?_, ih hys⟩
      intro a ha
      rcases insertByKey_mem key x ys a ha with h1 | h1
      · subst h1; exact h
      · exact hy a h1
    · rw [if_neg h]
      refine List.pairwise_cons.mpr ⟨?_, hl⟩
      intro a ha
      have hxy : key x ≤ key y := le_of_not_le h
      rcases List.mem_cons.mp ha with h1 | h1
      · subst h1; exact hxy
      · exact hxy.trans (hy a h1)

theorem sortByKey_perm {α : Type} (key : α → ℚ) (l : List α) :
    (sortByKey key l).Perm l := by
  suffices h : ∀ acc, (List.foldl (fun acc x => insertByKey key x acc) acc l).Perm (acc ++ l) by
    simpa using h []
  induction l with
  | nil => intro acc; simp
  | cons x xs ih =>
    intro acc
    simp only [List.foldl_cons]
    refine (ih (insertByKey key x acc)).trans ?_
    have h2 : (insertByKey key x acc ++ xs).Perm ((x :: acc) ++ xs) :=
      (insertByKey_perm key x acc).append_right xs
    exact h2.trans List.perm_middle.symm

theorem sortByKey_pairwise {α : Type} (key : α → ℚ) (l : List α) :
    List.Pairwise (fun a b => key a ≤ key b) (sortByKey key l) := by
  suffices h : ∀ acc, List.Pairwise (fun a b => key a ≤ key b) acc →
      List.Pairwise (fun a b => key a ≤ key b)
        (List.foldl (fun acc x => insertByKey key x acc) acc l) by
    exact h [] (by simp)
  induction l with
  | nil => intro acc hacc; simpa using hacc
  | cons x xs ih =>
    intro acc hacc
    simp only [List.foldl_cons]
    exact ih (insertByKey key x acc) (insertByKey_pairwise key x acc hacc)

theorem insertByKey_of_all_le {α : Type} (key : α → ℚ) (x : α) (l : List α)
    (h : ∀ a ∈ l, key a ≤ key x) : insertByKey key x l = l ++ [x] := by
  induction l with
  | nil => rfl
  | cons y ys ih =>
    unfold insertByKey
    rw [if_pos (h y (by simp)), ih (fun a ha => h a (by simp [ha]))]
    rfl

theorem sortByKey_foldl_of_pairwise {α : Type} (key : α → ℚ) : ∀ (l acc : List α),
    (∀ a ∈ acc, ∀ b ∈ l, key a ≤ key b) →
    List.Pairwise (fun a b => key a ≤ key b) l →
    List.foldl (fun acc x => insertByKey key x acc) acc l = acc ++ l := by
  intro l
  induction l with
  | nil => intro acc _ _; simp
  | cons x xs ih =>
    intro acc hcross hpair
    obtain ⟨hx, hxs⟩ := List.pairwise_cons.mp hpair
    simp only [List.foldl_cons]
    rw [insertByKey_of_all_le key x acc (fun a ha => hcross a ha x (by simp))]
    rw [ih (acc ++ [x]) ?_ hxs]
    · simp
    · intro a ha b hb
      rcases List.mem_append.mp ha with h1 | h1
      · exact hcross a h1 b (by simp [hb])
      · simp at h1; subst h1; exact hx b hb

theorem sortByKey_of_pairwise {α : Type} (key : α → ℚ) (l : List α)
    (h : List.Pairwise (fun a b => key a ≤ key b) l) : sortByKey key l = l := by
  simpa using sortByKey_foldl_of_pairwise key l [] (by simp) h

/-! ## Lemmas: the segmenter walk -/

theorem ctsGo_length (changes : List (ℚ × ChangeEvents)) (D : ℚ) :
    ∀ (keys : List ℚ) (lb : ℚ) (lt : Option ℚ) (lts : Option TimeSig),
      (ctsGo changes D keys lb lt lts).length = keys.length := by
  intro keys
  induction keys with
  | nil => intro _ _ _; rfl
  | cons k rest ih => intro lb lt lts; simp [ctsGo, ih]

theorem ctsGo_map_start (changes : List (ℚ × ChangeEvents)) (D : ℚ) :
    ∀ (keys : List ℚ) (lb : ℚ) (lt : Option ℚ) (lts : Option TimeSig),
      (ctsGo changes D keys lb lt lts).map Segment.start_ms = keys := by
  intro keys
  induction keys with
  | nil => intro _ _ _; rfl
  | cons k rest ih => intro lb lt lts; simp [ctsGo, ih]

theorem ctsGo_duration (changes : List (ℚ × ChangeEvents)) (D : ℚ) :
    ∀ (keys : List ℚ) (lb : ℚ) (lt : Option ℚ) (lts : Option TimeSig),
      ∀ s ∈ ctsGo changes D keys lb lt lts, s.duration_ms = s.end_ms - s.start_ms := by
  intro keys
  induction keys with
  | nil => intro _ _ _ s hs; simp [ctsGo] at hs
  | cons k rest ih =>
    intro lb lt lts s hs
    simp only [ctsGo] at hs
    rcases List.mem_cons.mp hs with h | h
    · subst h; rfl
    · exact ih _ _ _ s h

theorem ctsGo_cons (changes : List (ℚ × ChangeEvents)) (D k : ℚ) (rest : List ℚ)
    (lb : ℚ) (lt : Option ℚ) (lts : Option TimeSig) :
    ∃ seg lb2 lt2 lts2, ctsGo changes D (k :: rest) lb lt lts
        = seg :: ctsGo changes D rest lb2 lt2 lts2 ∧ seg.start_ms = k ∧
      seg.end_ms = (match rest with | [] => D | k2 :: _ => k2) :=
  ⟨_, _, _, _, rfl, rfl, rfl⟩

theorem ctsGo_chain (changes : List (ℚ × ChangeEvents)) (D : ℚ) :
    ∀ (keys : List ℚ) (lb : ℚ) (lt : Option ℚ) (lts : Option TimeSig),
      List.Chain' (fun a b => a.end_ms = b.start_ms) (ctsGo changes D keys lb lt lts) := by
  intro keys
  induction keys with
  | nil => intro _ _ _; simp [ctsGo]
  | cons k rest ih =>
    intro lb lt lts
    obtain ⟨seg, lb2, lt2, lts2, heq, hstart, hend⟩ := ctsGo_cons changes D k rest lb lt lts
    rw [heq]
    refine List.Chain'.cons' (ih lb2 lt2 lts2) ?_
    intro y hy
    cases rest with
    | nil => simp [ctsGo] at hy
    | cons k2 rest2 =>
      obtain ⟨seg2, lb3, lt3, lts3, heq2, hstart2, hend2⟩ :=
        ctsGo_cons changes D k2 rest2 lb2 lt2 lts2
      rw [heq2] at hy
      simp only [List.head?_cons, Option.mem_def, Option.some.injEq] at hy
      subst hy
      rw [hend, hstart2]

theorem ctsGo_getLast_end (changes : List (ℚ × ChangeEvents)) (D : ℚ) :
    ∀ (keys : List ℚ) (lb : ℚ) (lt : Option ℚ) (lts : Option TimeSig), keys ≠ [] →
      ((ctsGo changes D keys lb lt lts).getLast?.map Segment.end_ms) = some D := by
  intro keys
  induction keys with
  | nil => intro _ _ _ h; exact absurd rfl h
  | cons k rest ih =>
    intro lb lt lts _
    obtain ⟨seg, lb2, lt2, lts2, heq, hstart, hend⟩ := ctsGo_cons changes D k rest lb lt lts
    cases rest with
    | nil =>
      rw [heq]
      simp [ctsGo, hend]
    | cons k2 rest2 =>
      rw [heq]
      obtain ⟨seg2, lb3, lt3, lts3, heq2, _, _⟩ :=
        ctsGo_cons changes D k2 rest2 lb2 lt2 lts2
      rw [heq2, List.getLast?_cons_cons, ← heq2]
      exact ih lb2 lt2 lts2 (by simp)

theorem ctsGoE_of_some (changes : List (ℚ × ChangeEvents)) (D : ℚ) :
    ∀ (keys : List ℚ) (lb : ℚ) (lt : Option ℚ) (t : TimeSig),
      ctsGoE changes D keys lb lt (some t)
        = .ok (ctsGo changes D keys lb lt (some t)) := by
  intro keys
  induction keys with
  | nil => intro _ _ _; rfl
  | cons k rest ih =>
    intro lb lt t
    simp only [ctsGoE, ctsGo]
    cases h : ((lookupKey changes k).getD ⟨none, none⟩).time_signature with
    | none => simp [h, ih]
    | some u => simp [h, ih]

/-! ## Lemmas: presence of the zero key in the change map -/

theorem upsertTempo_zero_pres (k : ℚ) (tr : TempoRecord) :
    ∀ (m : List (ℚ × ChangeEvents)),
      (∃ ce, lookupKey m 0 = some ce ∧ ce.tempo.isSome = true) →
      ∃ ce, lookupKey (upsertTempo m k tr) 0 = some ce ∧ ce.tempo.isSome = true := by
  intro m
  induction m with
  | nil => rintro ⟨ce, hce, _⟩; simp [lookupKey] at hce
  | cons p rest ih =>
    rintro ⟨ce, hce, htempo⟩
    obtain ⟨k0, e⟩ := p
    by_cases hk : k0 = k
    · subst hk
      by_cases h0 : k0 = 0
      · subst h0
        exact ⟨{ e with tempo := some tr }, by simp [upsertTempo, lookupKey], by simp⟩
      · simp only [lookupKey, h0, if_false] at hce
        exact ⟨ce, by simp [upsertTempo, lookupKey, h0, hce], htempo⟩
    · by_cases h0 : k0 = 0
      · subst h0
        simp [lookupKey] at hce
        subst hce
        exact ⟨e, by simp [upsertTempo, lookupKey, hk], htempo⟩
      · simp only [lookupKey, h0, if_false] at hce
        obtain ⟨ce2, hce2, htempo2⟩ := ih ⟨ce, hce, htempo⟩
        exact ⟨ce2, by simp [upsertTempo, lookupKey, hk, h0, hce2], htempo2⟩

theorem upsertTimeSig_zero_pres (k : ℚ) (ts : TimeSig) :
    ∀ (m : List (ℚ × ChangeEvents)),
      (∃ ce, lookupKey m 0 = some ce ∧ ce.tempo.isSome = true) →
      ∃ ce, lookupKey (upsertTimeSig m k ts) 0 = some ce ∧ ce.tempo.isSome = true := by
  intro m
  induction m with
  | nil => rintro ⟨ce, hce, _⟩; simp [lookupKey] at hce
  | cons p rest ih =>
    rintro ⟨ce, hce, htempo⟩
    obtain ⟨k0, e⟩ := p
    by_cases hk : k0 = k
    · subst hk
      by_cases h0 : k0 = 0
      · subst h0
        simp [lookupKey] at hce
        subst hce
        refine ⟨{ e with time_signature := some ts }, by simp [upsertTimeSig, lookupKey], ?_⟩
        simpa using htempo
      · simp only [lookupKey, h0, if_false] at hce
        exact ⟨ce, by simp [upsertTimeSig, lookupKey, h0, hce], htempo⟩
    · by_cases h0 : k0 = 0
      · subst h0
        simp [lookupKey] at hce
        subst hce
        exact ⟨e, by simp [upsertTimeSig, lookupKey, hk], htempo⟩
      · simp only [lookupKey, h0, if_false] at hce
        obtain ⟨ce2, hce2, htempo2⟩ := ih ⟨ce, hce, htempo⟩
        exact ⟨ce2, by simp [upsertTimeSig, lookupKey, hk, h0, hce2], htempo2⟩

theorem tempoLoop_zero_pres (tpb : ℕ) :
    ∀ (events : List TempoEvent) (m : List (ℚ × ChangeEvents)) (cur_ms cur_tempo : ℚ)
      (last : ℕ),
      (∃ ce, lookupKey m 0 = some ce ∧ ce.tempo.isSome = true) →
      ∃ ce, lookupKey (tempoLoop tpb events m cur_ms cur_tempo last).1 0 = some ce ∧
        ce.tempo.isSome = true := by
  intro events
  induction events with
  | nil => intro m _ _ _ h; exact h
  | cons e rest ih =>
    intro m cur_ms cur_tempo last h
    simp only [tempoLoop]
    by_cases hne : cur_tempo ≠ e.tempo
    · rw [if_pos hne]
      exact ih _ _ _ _ (upsertTempo_zero_pres _ _ _ h)
    · rw [if_neg hne]
      exact ih _ _ _ _ h

theorem tsFold_zero_pres :
    ∀ (l : List TimeSigChange) (m : List (ℚ × ChangeEvents)),
      (∃ ce, lookupKey m 0 = some ce ∧ ce.tempo.isSome = true) →
      ∃ ce, lookupKey
          (l.foldl (fun m c => upsertTimeSig m (pyRound 3 c.time_ms)
            ⟨c.numerator, c.denominator⟩) m) 0 = some ce ∧ ce.tempo.isSome = true := by
  intro l
  induction l with
  | nil => intro m h; exact h
  | cons c rest ih =>
    intro m h
    simp only [List.foldl_cons]
    exact ih _ (upsertTimeSig_zero_pres _ _ _ h)

/-! ## The claims -/

/-- C1 counterexample: the round-trip fails for valid metadata whose
optional time_signature is absent.  The regex matches the encoded filename,
but `parse_segment_filename` reads the absent optional groups with
`int(match.group(4))`, which raises `TypeError`, so decoding returns no
metadata at all. -/
theorem c1_counterexample :
    parse_segment_filename
      (generate_segment_filename ("TheCrowing").data ("synth").data 0 10
        ⟨17000, none, 0, 228706, 228706⟩)
      = Except.error ("TypeError: int() argument is None").data := by
  decide

/-- C1 witness: the amended round-trip at a concrete input. -/
theorem c1_roundtrip_amended_witness :
    (("Song").data ≠ ([] : List Char)) ∧ (12345 ≤ 999999) ∧
    parse_segment_filename
      (generate_segment_filename ("Song").data ("synth").data 2 12
        ⟨12345, some ⟨3, 4⟩, 1500, 3000, 1500⟩)
      = Except.ok ⟨("Song").data, 2 + 1, ((12345 : ℕ) : ℚ) / 100, ⟨3, 4⟩,
          ((1500 : ℕ) : ℚ) / 1000, ((3000 : ℕ) : ℚ) / 1000, ((1500 : ℕ) : ℚ) / 1000,
          ("synth").data⟩ :=
  ⟨by decide, by decide,
    c1_roundtrip_amended ("Song").data ("synth").data 2 12 12345 3 4 1500 3000 1500
      (by decide) (by decide) (by decide) (by decide) (by decide)⟩

/-- C2: the concrete encoding from the spec, character for character:
base name TheCrowing, segment index 0 of 10, BPM 170.0, time signature 4/4,
start 0 s, end 228.706 s, duration 228.706 s, extension .synth. -/
theorem c2_concrete_encoding :
    generate_segment_filename ("TheCrowing").data ("synth").data 0 10
        ⟨17000, some ⟨4, 4⟩, 0, 228706, 228706⟩
      = ("TheCrowing_01_BPM170_TimeSignature4-4_0s-228.706s_dur228.706s_Segment.synth").data := by
  decide

/-- C4 counterexample: with no tempo changes the converter does NOT return
`t * T0 / ppb / 1000` (milliseconds); at `t = 1000`, `ppb = 500`,
`T0 = 500000` the code returns `1.0` (seconds) while the claimed value is
`1000.0`. -/
theorem c4_counterexample :
    calculate_time_from_ticks 1000 500 [] 500000 ≠ 1000 * 500000 / 500 / 1000 := by
  norm_num [calculate_time_from_ticks, calcGo, tick2second]

/-- C4 (amended): with no tempo changes the converter is linear and returns
`t * T0 / ppb / 1,000,000` — the elapsed time in SECONDS, as the function
docstring states (callers multiply by 1000 to obtain milliseconds). -/
theorem c4_no_tempo_changes_seconds (t ppb T0 : ℕ) (hppb : 0 < ppb) (hT0 : 0 < T0) :
    calculate_time_from_ticks t ppb [] (T0 : ℚ)
      = (t : ℚ) * T0 / ppb / 1000000 := by
  unfold calculate_time_from_ticks
  by_cases ht : t = 0
  · subst ht; simp
  · rw [if_neg ht]
    simp only [calcGo]
    rw [if_pos (by push_cast; simpa using Nat.pos_of_ne_zero ht)]
    unfold tick2second
    push_cast
    ring

/-- C4 witness: the amended statement at a concrete input. -/
theorem c4_no_tempo_changes_seconds_witness :
    0 < 2 ∧ 0 < 1000000 ∧
    calculate_time_from_ticks 3 2 [] ((1000000 : ℕ) : ℚ)
      = ((3 : ℕ) : ℚ) * ((1000000 : ℕ) : ℚ) / ((2 : ℕ) : ℚ) / 1000000 :=
  ⟨by decide, by decide, c4_no_tempo_changes_seconds 3 2 1000000 (by decide) (by decide)⟩

/-- C6: the leading-silence offset of the materializer equals the spec
formula (`0` for a first segment, `(2 + extra_padding) * 1000` otherwise,
with `extra_padding` the distance to the next measure line after 2 s), and
for BPM 120 in 4/4 a non-initial segment gets exactly 2000 ms. -/
theorem c6_leading_silence_offset (bpm start_ms : ℚ) (time_signature : TimeSigDict)
    (hbpm : 0 < bpm) (hm : 0 < beats_per_measure_from_time_signature time_signature) :
    create_tempo_segment_offset bpm time_signature start_ms
        = spec_total_offset bpm time_signature start_ms ∧
      (start_ms ≠ 0 → create_tempo_segment_offset 120 ⟨some 4, some 4⟩ start_ms = 2000) := by
  refine ⟨rfl, ?_⟩
  intro h
  have hb : beats_per_measure_from_time_signature ⟨some 4, some 4⟩ = 4 := by
    norm_num [beats_per_measure_from_time_signature, pyInt]
  simp only [create_tempo_segment_offset, hb]
  rw [if_neg h]
  norm_num [pyFMod]

/-- C6 witness: a concrete non-initial segment at BPM 120 in 4/4. -/
theorem c6_leading_silence_offset_witness :
    (0 : ℚ) < 120 ∧ 0 < beats_per_measure_from_time_signature ⟨some 4, some 4⟩ ∧
    (create_tempo_segment_offset 120 ⟨some 4, some 4⟩ 5000
        = spec_total_offset 120 ⟨some 4, some 4⟩ 5000 ∧
      ((5000 : ℚ) ≠ 0 → create_tempo_segment_offset 120 ⟨some 4, some 4⟩ 5000 = 2000)) :=
  ⟨by norm_num, by norm_num [beats_per_measure_from_time_signature, pyInt],
    c6_leading_silence_offset 120 5000 ⟨some 4, some 4⟩ (by norm_num)
      (by norm_num [beats_per_measure_from_time_signature, pyInt])⟩

/-- C7: code versus claim on the end-beat rule.  For a 2850 ms segment at
BPM 120 in 4/4 (5.7 beats), the code rounds the floored beat count UP to
whole measures (`ceil(floor(5.7)/4)*4 = 8`), while the claim (and the
comment in the source) require rounding DOWN to a whole number of measures
(`4`, one full measure). -/
theorem c7_code_eval :
    segment_end_beat 2850 120 ⟨some 4, some 4⟩ 0 = 8 ∧
    spec_end_beat 2850 120 ⟨some 4, some 4⟩ 0 = 4 := by
  have hb : beats_per_measure_from_time_signature ⟨some 4, some 4⟩ = 4 := by
    norm_num [beats_per_measure_from_time_signature, pyInt]
  have hfloor : ⌊second_to_beat (2850 / 1000) 120⌋ = (5 : ℤ) := by
    simp only [second_to_beat]
    norm_num
  have hceil : ⌈(5 : ℚ) / 4⌉ = (2 : ℤ) := by
    rw [Int.ceil_eq_iff]
    norm_num
  have hfdiv : Int.fdiv 8 4 = 2 := by decide
  constructor
  · simp only [segment_end_beat, segment_start_beat, second_to_beat, hb, hfloor]
    norm_num
    rw [hceil]
    norm_num [hfdiv]
  · simp only [spec_end_beat, segment_start_beat, second_to_beat, hb]
    norm_num

/-- C9 counterexample: for time signature 7/8 the quotient
`numerator / (denominator / 4) = 3.5` is fractional, yet the code RETURNS
the truncated value 3 — there is no `UnsupportedMeterError` anywhere. -/
theorem c9_counterexample :
    beats_per_measure_from_time_signature ⟨some 7, some 8⟩ = 3 ∧
    ((7 : ℚ) / ((8 : ℚ) / 4)).den ≠ 1 := by
  constructor
  · norm_num [beats_per_measure_from_time_signature, pyInt]
  · norm_num

/-- C9 (amended): `beats_per_measure_from_time_signature` always returns
`int(numerator / (denominator / 4))`, i.e. `4 * numerator / denominator`
truncated toward zero — {4,4} gives 4, {3,4} gives 3, {6,8} gives 3 — and
never fails on a fractional quotient. -/
theorem c9_beats_per_measure_amended (n d : ℕ) (hd : 0 < d) :
    beats_per_measure_from_time_signature ⟨some n, some d⟩ = pyInt ((4 * n : ℚ) / d) ∧
    beats_per_measure_from_time_signature ⟨some 4, some 4⟩ = 4 ∧
    beats_per_measure_from_time_signature ⟨some 3, some 4⟩ = 3 ∧
    beats_per_measure_from_time_signature ⟨some 6, some 8⟩ = 3 := by
  refine ⟨?_, by norm_num [beats_per_measure_from_time_signature, pyInt],
    by norm_num [beats_per_measure_from_time_signature, pyInt],
    by norm_num [beats_per_measure_from_time_signature, pyInt]⟩
  simp only [beats_per_measure_from_time_signature, Option.getD_some]
  congr 1
  rw [div_div_eq_mul_div]
  ring

/-- C9 witness: the amended statement at 6/8. -/
theorem c9_beats_per_measure_amended_witness :
    0 < 8 ∧
    (beats_per_measure_from_time_signature ⟨some 6, some 8⟩
        = pyInt ((4 * (6 : ℕ) : ℚ) / (8 : ℕ)) ∧
      beats_per_measure_from_time_signature ⟨some 4, some 4⟩ = 4 ∧
      beats_per_measure_from_time_signature ⟨some 3, some 4⟩ = 3 ∧
      beats_per_measure_from_time_signature ⟨some 6, some 8⟩ = 3) :=
  ⟨by norm_num, c9_beats_per_measure_amended 6 8 (by norm_num)⟩

/-- C10: the join bookmark label always renders the denominator as the
literal 4 and uses the raw decoded numerator, whatever the decoded
denominator was; a segment decoded as 6/8 is bookmarked `6/4`. -/
theorem c10_bookmark_label :
    (∀ (file_bpm : List Char) (info : ParsedSegment),
      merge_bookmark_label file_bpm info
        = file_bpm ++ (" BPM || Time Signature ").data
            ++ natDigits info.time_signature.numerator ++ '/' :: natDigits 4) ∧
    (∀ (file_bpm base_name : List Char) (segment_number : ℕ) (bpm : ℚ) (num d1 d2 : ℕ)
        (st et du : ℚ) (fe : List Char),
      merge_bookmark_label file_bpm ⟨base_name, segment_number, bpm, ⟨num, d1⟩, st, et, du, fe⟩
        = merge_bookmark_label file_bpm ⟨base_name, segment_number, bpm, ⟨num, d2⟩, st, et, du, fe⟩) ∧
    merge_bookmark_label ("170.0").data ⟨("X").data, 1, 170, ⟨6, 8⟩, 0, 1, 1, ("synth").data⟩
      = ("170.0 BPM || Time Signature 6/4").data := by
  refine ⟨fun _ _ => rfl, fun _ _ _ _ _ _ _ _ _ _ _ => rfl, by decide⟩

/-- C3 counterexample: a change map whose first key carries no
time-signature entry — exactly what the extractor produces for a MIDI with
tempo events but no time-signature events — makes `create_tempo_segments`
raise `TypeError` in the per-segment log f-string (src/audio.py line 96)
instead of returning any segments. -/
theorem c3_counterexample :
    create_tempo_segments [((0 : ℚ), ⟨some ⟨0, 120, 500000⟩, none⟩)] 9000 120
      = .error (("TypeError: NoneType object is not subscriptable").data) := by
  rfl

/-- C3 (amended): for a change map whose keys are strictly increasing, start
at 0 and stay within the audio duration, and whose FIRST key carries a
time-signature entry (so the per-segment log line never subscripts `None`),
`create_tempo_segments` returns normally: one segment per key, in key order,
with consecutive segments meeting exactly (`end_ms = next start_ms`), the
first starting at 0, the last ending at the audio duration, and every
duration equal to `end_ms - start_ms` — the half-open segment intervals
partition `[0, audio_duration_ms)`.  Without that time-signature entry the
function raises `TypeError` and returns nothing. -/
theorem c3_segmenter_partition (changes : List (ℚ × ChangeEvents))
    (audio_duration_ms initial_bpm : ℚ)
    (hsorted : List.Chain' (· < ·) (changes.map Prod.fst))
    (hzero : (changes.map Prod.fst).head? = some 0)
    (hle : ∀ k ∈ changes.map Prod.fst, k ≤ audio_duration_ms)
    (hts : (((lookupKey changes 0).getD ⟨none, none⟩).time_signature).isSome = true) :
    ∃ segs, create_tempo_segments changes audio_duration_ms initial_bpm = .ok segs ∧
      segs.length = changes.length ∧
      segs.map Segment.start_ms = changes.map Prod.fst ∧
      List.Chain' (fun a b => a.end_ms = b.start_ms) segs ∧
      (segs.head?.map Segment.start_ms) = some 0 ∧
      (segs.getLast?.map Segment.end_ms) = some audio_duration_ms ∧
      ∀ s ∈ segs, s.duration_ms = s.end_ms - s.start_ms := by
  have hpw : List.Pairwise (fun a b => id a ≤ id b) (changes.map Prod.fst) :=
    (List.chain'_iff_pairwise.mp hsorted).imp le_of_lt
  have hsort : sortByKey id (changes.map Prod.fst) = changes.map Prod.fst :=
    sortByKey_of_pairwise id _ hpw
  have hne : changes.map Prod.fst ≠ [] := by
    intro hnil; rw [hnil] at hzero; simp at hzero
  obtain ⟨t, ht⟩ := Option.isSome_iff_exists.mp hts
  have hok : create_tempo_segments changes audio_duration_ms initial_bpm
      = .ok (ctsGo changes audio_duration_ms (changes.map Prod.fst)
              initial_bpm none none) := by
    simp only [create_tempo_segments, hsort]
    cases hk : changes.map Prod.fst with
    | nil => exact absurd hk hne
    | cons k0 krest =>
      have hk0 : k0 = 0 := by rw [hk] at hzero; simpa using hzero
      subst hk0
      simp only [ctsGoE, ctsGo, ht]
      rw [ctsGoE_of_some]
  have hlen : (changes.map Prod.fst).length = changes.length := List.length_map _ _
  refine ⟨_, hok, by rw [ctsGo_length]; exact hlen, ctsGo_map_start _ _ _ _ _ _,
    ctsGo_chain _ _ _ _ _ _, ?_, ctsGo_getLast_end _ _ _ _ _ _ hne,
    ctsGo_duration _ _ _ _ _ _⟩
  calc (ctsGo changes audio_duration_ms (changes.map Prod.fst) initial_bpm
          none none).head?.map Segment.start_ms
      = ((ctsGo changes audio_duration_ms (changes.map Prod.fst) initial_bpm
          none none).map Segment.start_ms).head? := (List.head?_map _ _).symm
    _ = (changes.map Prod.fst).head? := by rw [ctsGo_map_start]
    _ = some 0 := hzero

/-- C3 witness: the partition property at a concrete two-key change map
whose first key carries a time signature. -/
theorem c3_segmenter_partition_witness :
    List.Chain' (· < ·) (exampleChanges.map Prod.fst) ∧
    (exampleChanges.map Prod.fst).head? = some 0 ∧
    (∀ k ∈ exampleChanges.map Prod.fst, k ≤ (9000 : ℚ)) ∧
    (((lookupKey exampleChanges 0).getD ⟨none, none⟩).time_signature).isSome = true ∧
    (∃ segs, create_tempo_segments exampleChanges 9000 120 = .ok segs ∧
      segs.length = exampleChanges.length ∧
      segs.map Segment.start_ms = exampleChanges.map Prod.fst ∧
      List.Chain' (fun a b => a.end_ms = b.start_ms) segs ∧
      (segs.head?.map Segment.start_ms) = some 0 ∧
      (segs.getLast?.map Segment.end_ms) = some 9000 ∧
      ∀ s ∈ segs, s.duration_ms = s.end_ms - s.start_ms) := by
  have h1 : List.Chain' (· < ·) (exampleChanges.map Prod.fst) := by
    norm_num [exampleChanges]
  have h2 : (exampleChanges.map Prod.fst).head? = some 0 := rfl
  have h3 : ∀ k ∈ exampleChanges.map Prod.fst, k ≤ (9000 : ℚ) := by
    intro k hk
    fin_cases hk <;> norm_num
  have h4 : (((lookupKey exampleChanges 0).getD ⟨none, none⟩).time_signature).isSome
      = true := rfl
  exact ⟨h1, h2, h3, h4, c3_segmenter_partition exampleChanges 9000 120 h1 h2 h3 h4⟩

/-- C8: the merger decodes every segment filename and processes segments in
ascending order of the decoded start time: the processing list is the
start-time sort of the decoded metadata — sorted and a permutation of the
decoded inputs — independent of the input listing order. -/
theorem c8_merge_ordering (filenames : List (List Char)) (infos : List ParsedSegment)
    (h : parseAll filenames = Except.ok infos) (hne : infos ≠ []) :
    merge_segment_order filenames
        = Except.ok (sortByKey (fun i => i.start_time) infos) ∧
      List.Chain' (fun a b => a.start_time ≤ b.start_time)
        (sortByKey (fun i => i.start_time) infos) ∧
      (sortByKey (fun i => i.start_time) infos).Perm infos := by
  have hperm := sortByKey_perm (fun i => i.start_time) infos
  have hchain : List.Chain' (fun a b => a.start_time ≤ b.start_time)
      (sortByKey (fun i => i.start_time) infos) :=
    (sortByKey_pairwise (fun i => i.start_time) infos).chain'
  refine ⟨?_, hchain, hperm⟩
  have hsne : sortByKey (fun i => i.start_time) infos ≠ [] := by
    intro hnil
    rw [hnil] at hperm
    exact hne hperm.symm.eq_nil
  simp only [merge_segment_order, h]
  rw [if_neg hsne]

/-- C8 witness: three example files listed with start times 10 s, 0 s, 5 s
are processed in start-time order 0 s, 5 s, 10 s. -/
theorem c8_merge_ordering_witness :
    parseAll [exampleSegFile1, exampleSegFile2, exampleSegFile3]
        = Except.ok [exampleInfo1, exampleInfo2, exampleInfo3] ∧
    (sortByKey (fun i => i.start_time) [exampleInfo1, exampleInfo2, exampleInfo3]).map
        ParsedSegment.start_time
      = [((0 : ℕ) : ℚ) / 1000, ((5000 : ℕ) : ℚ) / 1000, ((10000 : ℕ) : ℚ) / 1000] ∧
    (merge_segment_order [exampleSegFile1, exampleSegFile2, exampleSegFile3]
        = Except.ok (sortByKey (fun i => i.start_time)
            [exampleInfo1, exampleInfo2, exampleInfo3]) ∧
      List.Chain' (fun a b => a.start_time ≤ b.start_time)
        (sortByKey (fun i => i.start_time) [exampleInfo1, exampleInfo2, exampleInfo3]) ∧
      (sortByKey (fun i => i.start_time)
          [exampleInfo1, exampleInfo2, exampleInfo3]).Perm
        [exampleInfo1, exampleInfo2, exampleInfo3]) := by
  have e1 : exampleSegFile1 = generate_segment_filename ("A").data ("synth").data 0 1
      ⟨10000, some ⟨4, 4⟩, 10000, 11000, 1000⟩ := by decide
  have e2 : exampleSegFile2 = generate_segment_filename ("A").data ("synth").data 1 2
      ⟨10000, some ⟨4, 4⟩, 0, 1000, 1000⟩ := by decide
  have e3 : exampleSegFile3 = generate_segment_filename ("A").data ("synth").data 2 3
      ⟨10000, some ⟨4, 4⟩, 5000, 6000, 1000⟩ := by decide
  have p1 : parse_segment_filename exampleSegFile1 = Except.ok exampleInfo1 := by
    rw [e1]
    exact parse_generate_roundtrip ("A").data ("synth").data 0 1 10000 4 4 10000 11000 1000
      (by decide) (by decide) (by decide) (by decide) (by decide)
  have p2 : parse_segment_filename exampleSegFile2 = Except.ok exampleInfo2 := by
    rw [e2]
    exact parse_generate_roundtrip ("A").data ("synth").data 1 2 10000 4 4 0 1000 1000
      (by decide) (by decide) (by decide) (by decide) (by decide)
  have p3 : parse_segment_filename exampleSegFile3 = Except.ok exampleInfo3 := by
    rw [e3]
    exact parse_generate_roundtrip ("A").data ("synth").data 2 3 10000 4 4 5000 6000 1000
      (by decide) (by decide) (by decide) (by decide) (by decide)
  have hmap : parseAll [exampleSegFile1, exampleSegFile2, exampleSegFile3]
      = Except.ok [exampleInfo1, exampleInfo2, exampleInfo3] := by
    simp [parseAll, p1, p2, p3]
  have hsorted : (sortByKey (fun i => i.start_time)
        [exampleInfo1, exampleInfo2, exampleInfo3]).map ParsedSegment.start_time
      = [((0 : ℕ) : ℚ) / 1000, ((5000 : ℕ) : ℚ) / 1000, ((10000 : ℕ) : ℚ) / 1000] := by
    norm_num [sortByKey, insertByKey, exampleInfo1, exampleInfo2, exampleInfo3]
  exact ⟨hmap, hsorted,
    c8_merge_ordering [exampleSegFile1, exampleSegFile2, exampleSegFile3]
      [exampleInfo1, exampleInfo2, exampleInfo3] hmap (by simp)⟩

/-- C5 counterexample: a MIDI whose only tempo event sits at tick 0 and
repeats the base tempo (120 BPM = 500000 micros per beat) yields an EMPTY
change map — the key 0.0 is absent altogether, and no time signature is
synthesized. -/
theorem c5_counterexample :
    extract_tempo_and_time_signature_changes ⟨480, [[⟨0, .set_tempo 500000⟩]]⟩ 120 = [] := by
  have h1 : extract_tempo_changes ⟨480, [[⟨0, .set_tempo 500000⟩]]⟩
      = [⟨0, ((500000 : ℕ) : ℚ), 0⟩] := rfl
  have h3 : ∀ (te : List TempoEvent) (it : ℚ),
      extract_time_signature_changes ⟨480, [[⟨0, .set_tempo 500000⟩]]⟩ te it = [] :=
    fun _ _ => rfl
  have htempo : (60000000 : ℚ) / 120 = ((500000 : ℕ) : ℚ) := by norm_num
  simp only [extract_tempo_and_time_signature_changes, h1, h3, htempo]
  simp [tempoLoop]

/-- C5 (amended): whenever the MIDI has no tempo event at tick 0 (no tempo
events at all, or a first sorted event strictly after tick 0), the builder
synthesizes an initial tempo from the base BPM, and the returned ChangeMap
contains the key 0.0 resolving to a defined BPM/tempo.  (No time signature
is synthesized at 0.0, and a tick-0 event equal to the base tempo can leave
the key absent — see the counterexample.) -/
theorem c5_zero_key_amended (midi : MidiFileModel) (bpm : ℚ)
    (hcond : (match extract_tempo_changes midi with
        | [] => true
        | e :: _ => decide (0 < e.time_ticks)) = true) :
    ∃ ce, lookupKey (extract_tempo_and_time_signature_changes midi bpm) 0 = some ce ∧
      ce.tempo.isSome = true := by
  simp only [extract_tempo_and_time_signature_changes, hcond, if_true]
  apply tsFold_zero_pres
  apply tempoLoop_zero_pres
  refine ⟨⟨some ⟨0, pyRound 2 (tempo2bpm (60000000 / bpm)), 60000000 / bpm⟩, none⟩, ?_, rfl⟩
  simp [lookupKey]

/-- C5 witness: a MIDI whose first tempo event is at tick 100. -/
theorem c5_zero_key_amended_witness :
    ((match extract_tempo_changes ⟨480, [[⟨100, .set_tempo 600000⟩]]⟩ with
        | [] => true
        | e :: _ => decide (0 < e.time_ticks)) = true) ∧
    ∃ ce, lookupKey
        (extract_tempo_and_time_signature_changes ⟨480, [[⟨100, .set_tempo 600000⟩]]⟩ 120) 0
        = some ce ∧ ce.tempo.isSome = true :=
  ⟨by decide, c5_zero_key_amended ⟨480, [[⟨100, .set_tempo 600000⟩]]⟩ 120 (by decide)⟩
